import Mathlib

/-!
Verification development for the stock-prices-API repository.

The heart of the repository is `src/historical_loader.py`:
`download_historical_daily_prices`, a batched, retriable bulk-download
orchestrator around the yfinance batch quote provider, together with the
result normalizer `_extract_yfinance_batch`.

This file gives a shallow embedding of those functions and proves the
specification claims about them.  Modelling conventions:

* A pandas cell is a `RawVal`: a parseable numeric value (`num`), an
  unparseable value (`text`, which `pd.to_numeric(..., errors="coerce")`
  turns into null), or a missing value (`null`, pandas `NaN`).
* A raw provider response (`Raw`) is either an empty frame
  (`raw.empty` in the source), a MultiIndex frame keyed by ticker
  (`group_by="ticker"` shape), or a single-ticker frame whose grouping
  dimension was dropped.
* Python `set` iteration order is unspecified; wherever the source
  iterates over a set built from the batch, the embedding iterates in
  batch order.  All per-ticker counter updates are expressed pointwise
  (each distinct ticker is updated once, exactly as iterating over
  `set(batch)` does).
* Float quantities (`retry_backoff_seconds`, `delay_seconds`, sleep
  durations) are embedded as rationals; Python truthiness `if x:` on a
  float becomes `x ≠ 0`.
* `time.sleep` is modelled by recording the slept duration.
-/

namespace StockPrices

/-- One pandas cell as seen by `pd.to_numeric(..., errors="coerce")`:
a numeric value, an unparseable value, or a missing value (NaN). -/
inductive RawVal
  | num (n : Int)
  | text (s : String)
  | null
deriving DecidableEq, Repr

/-- Is this cell missing (pandas NaN)?  Used by `dropna(how="all")`. -/
def RawVal.isNA : RawVal → Bool
  | .null => true
  | _ => false

/-- `pd.to_numeric(v, errors="coerce")` on a single cell: numeric values
pass through, anything unparseable or missing becomes null; never raises. -/
def RawVal.toNumeric : RawVal → Option Int
  | .num n => some n
  | .text _ => none
  | .null => none

/-- One row of a raw provider response: the date index plus the six
OHLCV columns. -/
structure RawRow where
  dateIdx : Nat
  openV : RawVal
  highV : RawVal
  lowV : RawVal
  closeV : RawVal
  volumeV : RawVal
  adjCloseV : RawVal
deriving DecidableEq, Repr

/-- Are all column cells of the row missing?  `dropna(how="all")` drops
exactly these rows. -/
def RawRow.allNA (r : RawRow) : Bool :=
  r.openV.isNA && r.highV.isNA && r.lowV.isNA && r.closeV.isNA &&
    r.volumeV.isNA && r.adjCloseV.isNA

/-- A raw provider response (`yf.download` result):
`emptyFrame` models `raw.empty`; `multiFrame` a MultiIndex frame keyed by
level-0 ticker; `singleFrame` a frame whose ticker grouping was dropped. -/
inductive Raw
  | emptyFrame
  | multiFrame (cols : List (String × List RawRow))
  | singleFrame (rows : List RawRow)
deriving DecidableEq, Repr

/-- One normalized output row: date, ticker, the six coerced numeric
columns, and the provider tag. -/
structure OutRow where
  dateV : Nat
  tickerV : String
  openC : Option Int
  highC : Option Int
  lowC : Option Int
  closeC : Option Int
  volumeC : Option Int
  adjCloseC : Option Int
  providerTag : String
deriving DecidableEq, Repr

/-- Emit one normalized row for a ticker, coercing every numeric field. -/
def emitRow (t : String) (r : RawRow) : OutRow :=
  { dateV := r.dateIdx
    tickerV := t
    openC := r.openV.toNumeric
    highC := r.highV.toNumeric
    lowC := r.lowV.toNumeric
    closeC := r.closeV.toNumeric
    volumeC := r.volumeV.toNumeric
    adjCloseC := r.adjCloseV.toNumeric
    providerTag := "yfinance" }

/-- `raw[ticker].dropna(how="all")` for a MultiIndex response:
the ticker's sub-frame with all-missing rows removed. -/
def subFrame (cols : List (String × List RawRow)) (t : String) : List RawRow :=
  ((cols.lookup t).getD []).filter (fun r => !r.allNA)

/-- Result of `_extract_yfinance_batch`: the normalized frame and the
three-way per-ticker classification.  The source builds Python sets; the
embedding lists them in batch order. -/
structure Extracted where
  rows : List OutRow
  success : List String
  noData : List String
  unresolved : List String
deriving DecidableEq, Repr

/-- The MultiIndex loop of `_extract_yfinance_batch`: walk the requested
batch; a ticker absent from the level-0 values is unresolved, present with
an empty `dropna(how="all")` sub-frame is no-data, otherwise succeeded,
with its rows emitted in batch order. -/
def classifyMulti (cols : List (String × List RawRow)) : List String → Extracted
  | [] => ⟨[], [], [], []⟩
  | t :: ts =>
    let rest := classifyMulti cols ts
    if t ∈ cols.map Prod.fst then
      if subFrame cols t = [] then
        ⟨rest.rows, rest.success, t :: rest.noData, rest.unresolved⟩
      else
        ⟨(subFrame cols t).map (emitRow t) ++ rest.rows,
          t :: rest.success, rest.noData, rest.unresolved⟩
    else
      ⟨rest.rows, rest.success, rest.noData, t :: rest.unresolved⟩

/-- `_extract_yfinance_batch(raw, batch)`.  An empty raw response marks
the whole batch unresolved.  A single-ticker shaped response classifies
only `batch[0]` — the source indexes `batch[0]` directly (and would raise
IndexError on an empty batch; the orchestrator never passes one, and the
embedding returns the empty classification there). -/
def extractYfinanceBatch (raw : Raw) (batch : List String) : Extracted :=
  match raw with
  | .emptyFrame => ⟨[], [], [], batch⟩
  | .multiFrame cols => classifyMulti cols batch
  | .singleFrame rows0 =>
    match batch with
    | [] => ⟨[], [], [], []⟩
    | t :: _ =>
      let sub := rows0.filter (fun r => !r.allNA)
      if sub = [] then ⟨[], [], [t], []⟩
      else ⟨sub.map (emitRow t), [t], [], []⟩

/-- `dict.fromkeys(tickers)`: deduplicate preserving first-seen order. -/
def dedupFirstAux (seen : List String) : List String → List String
  | [] => []
  | t :: ts => if t ∈ seen then dedupFirstAux seen ts else t :: dedupFirstAux (t :: seen) ts

/-- Deduplicate a ticker list keeping the first occurrence of each
ticker, in first-seen order. -/
def dedupFirst (l : List String) : List String :=
  dedupFirstAux [] l

/-- Orchestrator configuration: the validated tuning parameters of
`download_historical_daily_prices`. -/
structure Config where
  batchSize : Nat
  maxRetriesPerTicker : Nat
  retryBackoffSeconds : ℚ
  noDataConfirmations : Nat
  delaySeconds : ℚ
deriving Repr

/-- Mutable orchestrator state at the top of the while loop.
`succeededTickers` and `confirmedNoData` record the terminal
dispositions that the source tracks only through the `finalized`
counter; `failedTickers`, `finalized`, the counters and the queue mirror
the source's variables directly. -/
structure LoaderState where
  pending : List String
  attemptCounts : String → Nat
  noDataCounts : String → Nat
  failedTickers : List String
  finalized : Nat
  rows : List OutRow
  succeededTickers : List String
  confirmedNoData : List String

/-- Initial loop state: deduplicated queue, all counters zero. -/
def initState (tickers : List String) : LoaderState :=
  { pending := dedupFirst tickers
    attemptCounts := fun _ => 0
    noDataCounts := fun _ => 0
    failedTickers := []
    finalized := 0
    rows := []
    succeededTickers := []
    confirmedNoData := [] }

/-- One provider call outcome: the `yf.download` call raises, or returns
a raw frame. -/
inductive Outcome
  | raises
  | ok (raw : Raw)

/-- What one loop round produced: the successor state, the slept
duration (0 when no sleep happens), whether the Normalizer ran, and the
tickers re-enqueued this round. -/
structure RoundOut where
  state : LoaderState
  sleep : ℚ
  normalizerCalled : Bool
  retried : List String

/-- `attempt_counts[t] += 1` for every batch ticker (the `except`
branch iterates `set(batch)`; pointwise update). -/
def failAttempt (s : LoaderState) (batch : List String) : String → Nat :=
  fun t => if t ∈ batch then s.attemptCounts t + 1 else s.attemptCounts t

/-- `no_data_counts[t] = 0` for every batch ticker. -/
def failNoData (s : LoaderState) (batch : List String) : String → Nat :=
  fun t => if t ∈ batch then 0 else s.noDataCounts t

/-- Batch tickers re-enqueued after a transport failure:
`attempt_counts[t] <= max_retries_per_ticker`. -/
def failReenq (cfg : Config) (s : LoaderState) (batch : List String) : List String :=
  batch.filter (fun t => decide (failAttempt s batch t ≤ cfg.maxRetriesPerTicker))

/-- Batch tickers newly marked permanently failed after a transport
failure: retry budget exhausted. -/
def failNewFailed (cfg : Config) (s : LoaderState) (batch : List String) : List String :=
  batch.filter (fun t => decide (cfg.maxRetriesPerTicker < failAttempt s batch t))

/-- The `except Exception` branch: every batch ticker gets
`no_data_counts[t] = 0` and `attempt_counts[t] += 1`; tickers within
budget are re-appended, the rest are permanently failed and counted as
finalized; backoff sleeps
`min(retry_backoff_seconds * 2 ** (max_attempt_in_batch - 1), 60)` when
`retry_backoff_seconds` is truthy and the batch is non-empty.  The
source iterates over `set(batch)`; the embedding updates each ticker
pointwise and appends retries in batch order. -/
def roundTransport (cfg : Config) (s : LoaderState) (batch rest : List String) : RoundOut :=
  let attempt' := failAttempt s batch
  let maxA := (batch.map attempt').foldl max 0
  let sleepAmt : ℚ :=
    if cfg.retryBackoffSeconds ≠ 0 ∧ batch ≠ [] then
      min (cfg.retryBackoffSeconds * 2 ^ (maxA - 1)) 60
    else 0
  { state :=
      { pending := rest ++ failReenq cfg s batch
        attemptCounts := attempt'
        noDataCounts := failNoData s batch
        failedTickers := s.failedTickers ++ failNewFailed cfg s batch
        finalized := s.finalized + (failNewFailed cfg s batch).length
        rows := s.rows
        succeededTickers := s.succeededTickers
        confirmedNoData := s.confirmedNoData }
    sleep := sleepAmt
    normalizerCalled := false
    retried := failReenq cfg s batch }

/-- `no_data_counts` after the succeeded-reset and no-data-increment
loops of the success branch. -/
def noDataMid (s : LoaderState) (e : Extracted) : String → Nat :=
  fun t =>
    if t ∈ e.success then 0
    else if t ∈ e.noData then s.noDataCounts t + 1
    else s.noDataCounts t

/-- No-data tickers whose count reached `no_data_confirmations`:
finalized as confirmed-no-data. -/
def noDataConfirmedOf (cfg : Config) (s : LoaderState) (e : Extracted) : List String :=
  e.noData.filter (fun t => decide (cfg.noDataConfirmations ≤ noDataMid s e t))

/-- No-data tickers below the confirmation threshold: re-enqueued. -/
def noDataRetryOf (cfg : Config) (s : LoaderState) (e : Extracted) : List String :=
  e.noData.filter (fun t => decide (noDataMid s e t < cfg.noDataConfirmations))

/-- `attempt_counts` after the unresolved loop of the success branch. -/
def attemptAfter (s : LoaderState) (e : Extracted) : String → Nat :=
  fun t => if t ∈ e.unresolved then s.attemptCounts t + 1 else s.attemptCounts t

/-- `no_data_counts` after the unresolved loop of the success branch. -/
def noDataAfter (s : LoaderState) (e : Extracted) : String → Nat :=
  fun t => if t ∈ e.unresolved then 0 else noDataMid s e t

/-- Unresolved tickers re-enqueued: still within the retry budget. -/
def unresReenqOf (cfg : Config) (s : LoaderState) (e : Extracted) : List String :=
  e.unresolved.filter (fun t => decide (attemptAfter s e t ≤ cfg.maxRetriesPerTicker))

/-- Unresolved tickers newly marked permanently failed. -/
def unresFailedOf (cfg : Config) (s : LoaderState) (e : Extracted) : List String :=
  e.unresolved.filter (fun t => decide (cfg.maxRetriesPerTicker < attemptAfter s e t))

/-- The successful-call branch: normalize, append rows, reset
`no_data_counts` for succeeded tickers, bump it for no-data tickers
(confirm or retry), then treat unresolved tickers like a per-ticker
transport failure; sleep per the source's backoff rule (the source keys
`max_attempt_in_batch` off `no_data_counts` for no-data retries and off
`attempt_counts` for unresolved tickers).  Set iterations are taken in
the normalizer's batch order. -/
def roundSuccess (cfg : Config) (s : LoaderState) (batch rest : List String) (raw : Raw) :
    RoundOut :=
  let e := extractYfinanceBatch raw batch
  let maxA1 := ((noDataRetryOf cfg s e).map (noDataMid s e)).foldl max 0
  let maxA := (e.unresolved.map (attemptAfter s e)).foldl max maxA1
  let pending' := rest ++ noDataRetryOf cfg s e ++ unresReenqOf cfg s e
  let sleepAmt : ℚ :=
    if cfg.retryBackoffSeconds ≠ 0 ∧ (e.unresolved ≠ [] ∨ noDataRetryOf cfg s e ≠ []) then
      min (cfg.retryBackoffSeconds * 2 ^ (maxA - 1)) 60
    else if cfg.delaySeconds ≠ 0 ∧ pending' ≠ [] then cfg.delaySeconds
    else 0
  { state :=
      { pending := pending'
        attemptCounts := attemptAfter s e
        noDataCounts := noDataAfter s e
        failedTickers := s.failedTickers ++ unresFailedOf cfg s e
        finalized := s.finalized + e.success.length + (noDataConfirmedOf cfg s e).length +
          (unresFailedOf cfg s e).length
        rows := s.rows ++ e.rows
        succeededTickers := s.succeededTickers ++ e.success
        confirmedNoData := s.confirmedNoData ++ noDataConfirmedOf cfg s e }
    sleep := sleepAmt
    normalizerCalled := true
    retried := noDataRetryOf cfg s e ++ unresReenqOf cfg s e }

/-- One round of the while loop: pop up to `batch_size` tickers, call the
provider, dispatch on the outcome. -/
def roundStep (cfg : Config) (o : Outcome) (s : LoaderState) : RoundOut :=
  let batch := s.pending.take cfg.batchSize
  let rest := s.pending.drop cfg.batchSize
  match o with
  | .raises => roundTransport cfg s batch rest
  | .ok raw => roundSuccess cfg s batch rest raw

/-- The while loop, fuel-indexed: `provider idx batch` is the outcome of
the `idx`-th `yf.download` call (`idx` counts `batch_index` from 1).
Returns the final state and the per-round trace, or `none` when fuel
runs out (shown below never to happen for sufficient fuel). -/
def runLoop (cfg : Config) (provider : Nat → List String → Outcome) :
    Nat → Nat → LoaderState → List RoundOut → Option (LoaderState × List RoundOut)
  | 0, _, s, trace =>
    if s.pending = [] then some (s, trace.reverse) else none
  | fuel + 1, idx, s, trace =>
    if s.pending = [] then some (s, trace.reverse)
    else
      let r := roundStep cfg (provider idx (s.pending.take cfg.batchSize)) s
      runLoop cfg provider fuel (idx + 1) r.state (r :: trace)

/-- The per-ticker consequences claimed for a transport-failure round:
counters updated, the queue extended at the back with the in-budget
batch tickers, budget-exhausted tickers failed and finalized, and no
Normalizer call. -/
def TransportRoundEffect (cfg : Config) (s : LoaderState) (t : String) : Prop :=
  (roundStep cfg .raises s).state.attemptCounts t = s.attemptCounts t + 1 ∧
  (roundStep cfg .raises s).state.noDataCounts t = 0 ∧
  (roundStep cfg .raises s).normalizerCalled = false ∧
  (roundStep cfg .raises s).state.pending =
    s.pending.drop cfg.batchSize ++
      (s.pending.take cfg.batchSize).filter
        (fun u => decide (s.attemptCounts u + 1 ≤ cfg.maxRetriesPerTicker)) ∧
  (s.attemptCounts t + 1 ≤ cfg.maxRetriesPerTicker →
    t ∈ (roundStep cfg .raises s).state.pending ∧
    t ∈ (roundStep cfg .raises s).retried) ∧
  (cfg.maxRetriesPerTicker < s.attemptCounts t + 1 →
    t ∈ (roundStep cfg .raises s).state.failedTickers ∧
    t ∉ (roundStep cfg .raises s).state.pending ∧
    t ∈ (s.pending.take cfg.batchSize).filter
        (fun u => decide (cfg.maxRetriesPerTicker < s.attemptCounts u + 1)) ∧
    (roundStep cfg .raises s).state.finalized =
      s.finalized +
        ((s.pending.take cfg.batchSize).filter
          (fun u => decide (cfg.maxRetriesPerTicker < s.attemptCounts u + 1))).length)

/-- The per-ticker consequences claimed for an unresolved ticker after a
successful provider call: same counter effect as a transport failure,
applied only to the unresolved tickers. -/
def UnresolvedRoundEffect (cfg : Config) (s : LoaderState) (raw : Raw) (t : String) : Prop :=
  (roundStep cfg (.ok raw) s).state.noDataCounts t = 0 ∧
  (roundStep cfg (.ok raw) s).state.attemptCounts t = s.attemptCounts t + 1 ∧
  (∀ u, u ∉ (extractYfinanceBatch raw (s.pending.take cfg.batchSize)).unresolved →
    (roundStep cfg (.ok raw) s).state.attemptCounts u = s.attemptCounts u) ∧
  (s.attemptCounts t + 1 ≤ cfg.maxRetriesPerTicker →
    t ∈ (roundStep cfg (.ok raw) s).state.pending ∧
    t ∈ (roundStep cfg (.ok raw) s).retried) ∧
  (cfg.maxRetriesPerTicker < s.attemptCounts t + 1 →
    t ∈ (roundStep cfg (.ok raw) s).state.failedTickers ∧
    t ∉ (roundStep cfg (.ok raw) s).state.pending ∧
    t ∈ (extractYfinanceBatch raw (s.pending.take cfg.batchSize)).unresolved.filter
        (fun u => decide (cfg.maxRetriesPerTicker < s.attemptCounts u + 1)) ∧
    (roundStep cfg (.ok raw) s).state.finalized =
      s.finalized + (extractYfinanceBatch raw (s.pending.take cfg.batchSize)).success.length +
        (noDataConfirmedOf cfg s (extractYfinanceBatch raw (s.pending.take cfg.batchSize))).length +
        ((extractYfinanceBatch raw (s.pending.take cfg.batchSize)).unresolved.filter
          (fun u => decide (cfg.maxRetriesPerTicker < s.attemptCounts u + 1))).length)

/-- The claimed consequences for a no-data ticker: count bumped, ticker
confirmed (and out of the queue for good) at the threshold, re-enqueued
below it; the count resets on transport failure and on unresolved. -/
def NoDataRoundEffect (cfg : Config) (s : LoaderState) (raw : Raw) (t : String) : Prop :=
  (roundStep cfg (.ok raw) s).state.noDataCounts t = s.noDataCounts t + 1 ∧
  (cfg.noDataConfirmations ≤ s.noDataCounts t + 1 →
    t ∈ (roundStep cfg (.ok raw) s).state.confirmedNoData ∧
    t ∉ (roundStep cfg (.ok raw) s).state.pending) ∧
  (s.noDataCounts t + 1 < cfg.noDataConfirmations →
    t ∈ (roundStep cfg (.ok raw) s).state.pending ∧
    t ∈ (roundStep cfg (.ok raw) s).retried) ∧
  (∀ u ∈ s.pending.take cfg.batchSize, (roundStep cfg .raises s).state.noDataCounts u = 0) ∧
  (∀ u ∈ (extractYfinanceBatch raw (s.pending.take cfg.batchSize)).unresolved,
    (roundStep cfg (.ok raw) s).state.noDataCounts u = 0) ∧
  (∀ s2 : LoaderState, ∀ o2 : Outcome, t ∈ s2.confirmedNoData → t ∉ s2.pending →
    t ∈ (roundStep cfg o2 s2).state.confirmedNoData ∧
    t ∉ (roundStep cfg o2 s2).state.pending)

/-- The backoff amount asserted by the spec sentence behind the claim:
`min(retry_backoff_seconds * 2 ** (m - 1), 60)` where `m` is the highest
`attempt_count` reached by any ticker retried in the round. -/
def claimedBackoff (cfg : Config) (r : RoundOut) : ℚ :=
  min (cfg.retryBackoffSeconds *
    2 ^ (((r.retried.map r.state.attemptCounts).foldl max 0) - 1)) 60

/-- Configuration used to exhibit the backoff divergence: defaults
`max_retries_per_ticker = 4`, `retry_backoff_seconds = 1.5`,
`no_data_confirmations = 3`, `delay_seconds = 0`. -/
def cfgC8 : Config := ⟨50, 4, 3/2, 3, 0⟩

/-- A raw response carrying ticker `"A"` with a single all-null row:
`"A"` classifies as no-data. -/
def c8raw : Raw := .multiFrame [("A", [⟨0, .null, .null, .null, .null, .null, .null⟩])]

/-- The loop state reached from queue `["A"]` after two consecutive
transport failures: `attempt_counts["A"] = 2`, `no_data_counts["A"] = 0`,
`"A"` pending again. -/
def c8state : LoaderState :=
  (roundStep cfgC8 .raises (roundStep cfgC8 .raises (initState ["A"])).state).state

/-- The sleep rule the source actually implements, in pre-round terms:
a transport round keys the exponent off the incremented attempt counts
of the whole batch; a success round keys it off the incremented
`no_data_counts` of the no-data retries joined with the incremented
`attempt_counts` of the unresolved tickers, and falls back to the flat
`delay_seconds` throttle when `retry_backoff_seconds` is zero or no
retry-worthy condition occurred while the queue stays non-empty. -/
def SleepRule (cfg : Config) (s : LoaderState) : Prop :=
  ((roundStep cfg .raises s).sleep =
    (if cfg.retryBackoffSeconds ≠ 0 ∧ s.pending.take cfg.batchSize ≠ [] then
      min (cfg.retryBackoffSeconds *
        2 ^ ((((s.pending.take cfg.batchSize).map
          (fun t => s.attemptCounts t + 1)).foldl max 0) - 1)) 60
    else 0)) ∧
  (∀ raw,
    (roundStep cfg (.ok raw) s).sleep =
      (let e := extractYfinanceBatch raw (s.pending.take cfg.batchSize)
       let ndRetry := e.noData.filter
         (fun u => decide (s.noDataCounts u + 1 < cfg.noDataConfirmations))
       let m := (e.unresolved.map (fun u => s.attemptCounts u + 1)).foldl max
         ((ndRetry.map (fun u => s.noDataCounts u + 1)).foldl max 0)
       if cfg.retryBackoffSeconds ≠ 0 ∧ (e.unresolved ≠ [] ∨ ndRetry ≠ []) then
         min (cfg.retryBackoffSeconds * 2 ^ (m - 1)) 60
       else if cfg.delaySeconds ≠ 0 ∧
           (s.pending.drop cfg.batchSize ++ ndRetry ++
             e.unresolved.filter
               (fun u => decide (s.attemptCounts u + 1 ≤ cfg.maxRetriesPerTicker)) ≠ []) then
         cfg.delaySeconds
       else 0))

/-- The `(Ticker, Date)` key used by `drop_duplicates` and
`sort_values`. -/
def rowKey (r : OutRow) : String × Nat := (r.tickerV, r.dateV)

/-- `drop_duplicates(subset=["Ticker", "Date"], keep="last")`: a row is
kept exactly when no later row shares its key. -/
def dropDuplicatesKeepLast : List OutRow → List OutRow
  | [] => []
  | r :: rs =>
    if ∃ r2 ∈ rs, rowKey r2 = rowKey r then dropDuplicatesKeepLast rs
    else r :: dropDuplicatesKeepLast rs

/-- The `sort_values(["Ticker", "Date"])` order: lexicographic on
ticker then date, ascending. -/
def rowLE (a b : OutRow) : Prop :=
  a.tickerV < b.tickerV ∨ (a.tickerV = b.tickerV ∧ a.dateV ≤ b.dateV)

/-- Strict version of `rowLE`. -/
def rowLT (a b : OutRow) : Prop :=
  a.tickerV < b.tickerV ∨ (a.tickerV = b.tickerV ∧ a.dateV < b.dateV)

instance : DecidableRel rowLE := fun a b => by unfold rowLE; infer_instance

instance : IsTotal OutRow rowLE :=
  ⟨fun a b => by
    rcases lt_trichotomy a.tickerV b.tickerV with h | h | h
    · exact Or.inl (Or.inl h)
    · rcases Nat.le_total a.dateV b.dateV with hd | hd
      · exact Or.inl (Or.inr ⟨h, hd⟩)
      · exact Or.inr (Or.inr ⟨h.symm, hd⟩)
    · exact Or.inr (Or.inl h)⟩

instance : IsTrans OutRow rowLE :=
  ⟨fun a b c hab hbc => by
    rcases hab with h1 | ⟨h1, h2⟩ <;> rcases hbc with h3 | ⟨h3, h4⟩
    · exact Or.inl (h1.trans h3)
    · exact Or.inl (h3 ▸ h1)
    · exact Or.inl (h1 ▸ h3)
    · exact Or.inr ⟨h1.trans h3, h2.trans h4⟩⟩

/-- The final shaping of the result table:
`drop_duplicates(subset=["Ticker", "Date"], keep="last")` followed by
`sort_values(["Ticker", "Date"])`. -/
def finalizeRows (rows : List OutRow) : List OutRow :=
  List.insertionSort rowLE (dropDuplicatesKeepLast rows)

/-- The error taxonomy of the spec: `ConfigurationError` for parameter
bounds, `DownloadFailure` (a capped alphabetical sample plus the total
count), `NoDataError`, and the empty-universe error. -/
inductive DownloadError
  | noTickers
  | configurationError (msg : String)
  | downloadFailure (sample : List String) (failedCount : Nat)
  | noDataError
deriving DecidableEq, Repr

/-- The post-loop outcome decision of
`download_historical_daily_prices`: permanently-failed tickers first
(message carries the 20 alphabetically first failed tickers and the
total count), then the zero-rows check, else the finalized table. -/
def finishDownload (s : LoaderState) : Except DownloadError (List OutRow) :=
  if s.failedTickers ≠ [] then
    .error (.downloadFailure
      ((List.insertionSort (fun a b : String => a ≤ b) s.failedTickers).take 20)
      s.failedTickers.length)
  else if s.rows = [] then .error .noDataError
  else .ok (finalizeRows s.rows)

/-- The outcome decision claimed for the moment the work queue empties:
failed tickers dominate (with a sorted, capped sample and the total
count), then the zero-row check, else the finalized table. -/
def FinishRule (s : LoaderState) : Prop :=
  (s.failedTickers ≠ [] →
    finishDownload s = .error (.downloadFailure
      ((List.insertionSort (fun a b : String => a ≤ b) s.failedTickers).take 20)
      s.failedTickers.length) ∧
    ((List.insertionSort (fun a b : String => a ≤ b) s.failedTickers).take 20).Sorted
      (fun a b : String => a ≤ b) ∧
    ((List.insertionSort (fun a b : String => a ≤ b) s.failedTickers).take 20).length ≤ 20 ∧
    (∀ t ∈ (List.insertionSort (fun a b : String => a ≤ b) s.failedTickers).take 20,
      t ∈ s.failedTickers) ∧
    (s.failedTickers.length ≤ 20 →
      ∀ t ∈ s.failedTickers,
        t ∈ (List.insertionSort (fun a b : String => a ≤ b) s.failedTickers).take 20)) ∧
  (s.failedTickers = [] → s.rows = [] → finishDownload s = .error .noDataError) ∧
  (s.failedTickers = [] → s.rows ≠ [] → finishDownload s = .ok (finalizeRows s.rows))

/-- A post-loop state with one permanently-failed ticker. -/
def c4state : LoaderState :=
  { pending := []
    attemptCounts := fun _ => 5
    noDataCounts := fun _ => 0
    failedTickers := ["A"]
    finalized := 1
    rows := []
    succeededTickers := []
    confirmedNoData := [] }

/-- The totality property the claim asserts of the Normalizer: every
requested ticker of a non-empty batch lands in one of the three
classification sets, whatever the response shape. -/
def ClassifiesTotally (raw : Raw) (batch : List String) : Prop :=
  ∀ t ∈ batch,
    t ∈ (extractYfinanceBatch raw batch).success ∨
    t ∈ (extractYfinanceBatch raw batch).noData ∨
    t ∈ (extractYfinanceBatch raw batch).unresolved

/-- A fully populated raw row. -/
def c5row : RawRow := ⟨0, .num 1, .num 2, .num 1, .num 2, .num 100, .num 2⟩

/-- The classification behaviour of `_extract_yfinance_batch` on legal
response shapes: each requested ticker is in exactly one of the three
sets; an empty response marks the whole batch unresolved with no rows; a
MultiIndex response classifies by presence in the level-0 values and
emptiness of the `dropna(how="all")` sub-frame, and emits every row of
each succeeded ticker with the numeric fields coerced (total functions:
coercion never raises). -/
def NormalizerClassification (raw : Raw) (batch : List String) : Prop :=
  (∀ t ∈ batch,
    (t ∈ (extractYfinanceBatch raw batch).success ∧
      t ∉ (extractYfinanceBatch raw batch).noData ∧
      t ∉ (extractYfinanceBatch raw batch).unresolved) ∨
    (t ∉ (extractYfinanceBatch raw batch).success ∧
      t ∈ (extractYfinanceBatch raw batch).noData ∧
      t ∉ (extractYfinanceBatch raw batch).unresolved) ∨
    (t ∉ (extractYfinanceBatch raw batch).success ∧
      t ∉ (extractYfinanceBatch raw batch).noData ∧
      t ∈ (extractYfinanceBatch raw batch).unresolved)) ∧
  (raw = .emptyFrame →
    (extractYfinanceBatch raw batch).success = [] ∧
    (extractYfinanceBatch raw batch).noData = [] ∧
    (extractYfinanceBatch raw batch).unresolved = batch ∧
    (extractYfinanceBatch raw batch).rows = []) ∧
  (∀ cols, raw = .multiFrame cols → ∀ t ∈ batch,
    (t ∈ (extractYfinanceBatch raw batch).unresolved ↔ t ∉ cols.map Prod.fst) ∧
    (t ∈ (extractYfinanceBatch raw batch).noData ↔
      t ∈ cols.map Prod.fst ∧ subFrame cols t = []) ∧
    (t ∈ (extractYfinanceBatch raw batch).success ↔
      t ∈ cols.map Prod.fst ∧ subFrame cols t ≠ [])) ∧
  (∀ cols, raw = .multiFrame cols →
    (extractYfinanceBatch raw batch).rows =
      (batch.map (fun t =>
        if t ∈ cols.map Prod.fst ∧ subFrame cols t ≠ [] then
          (subFrame cols t).map (emitRow t)
        else [])).flatten)

/-- The raw (unvalidated) tuning parameters of
`download_historical_daily_prices`, as typed at the boundary. -/
structure RawParams where
  batchSize : Int
  maxRetriesPerTicker : Int
  retryBackoffSeconds : ℚ
  noDataConfirmations : Int

/-- The prelude of `download_historical_daily_prices` in source order:
when `tickers is None` the NYSE universe is fetched over the network
FIRST, then the empty check and the four parameter bounds run, each
raising on violation.  The Bool records whether the universe fetch (a
network request) happened before any error was raised; the loop's
provider calls only start when the second component is `none`. -/
def validateParams (tickersOpt : Option (List String)) (univ : List String)
    (p : RawParams) : Bool × Option DownloadError :=
  let fetched := tickersOpt.isNone
  let tickers := tickersOpt.getD univ
  if tickers = [] then (fetched, some .noTickers)
  else if p.batchSize < 1 then
    (fetched, some (.configurationError "batch_size must be >= 1"))
  else if p.maxRetriesPerTicker < 0 then
    (fetched, some (.configurationError "max_retries_per_ticker must be >= 0"))
  else if p.retryBackoffSeconds < 0 then
    (fetched, some (.configurationError "retry_backoff_seconds must be >= 0"))
  else if p.noDataConfirmations < 1 then
    (fetched, some (.configurationError "no_data_confirmations must be >= 1"))
  else (fetched, none)

/-- A parameter tuple violating at least one documented bound. -/
def paramsViolated (p : RawParams) : Prop :=
  p.batchSize < 1 ∨ p.maxRetriesPerTicker < 0 ∨
    p.retryBackoffSeconds < 0 ∨ p.noDataConfirmations < 1

/-- What the claim asserts: a violated bound produces a
`ConfigurationError` with no network activity at all, even when the
ticker universe would have to be fetched remotely. -/
def FailsBeforeAnyNetwork (tickersOpt : Option (List String)) (univ : List String)
    (p : RawParams) : Prop :=
  paramsViolated p →
    (validateParams tickersOpt univ p).1 = false ∧
    ∃ msg, (validateParams tickersOpt univ p).2 = some (.configurationError msg)

/-- Per-ticker termination potential: retries left (weighted by the
no-data budget) plus remaining no-data budget. -/
def phi (cfg : Config) (attempt noData : String → Nat) (t : String) : Nat :=
  (cfg.maxRetriesPerTicker + 1 - attempt t) * cfg.noDataConfirmations +
    (cfg.noDataConfirmations - noData t)

/-- Loop measure: total potential of the pending queue. -/
def measureOf (cfg : Config) (s : LoaderState) : Nat :=
  (s.pending.map (phi cfg s.attemptCounts s.noDataCounts)).sum

/-- The counter bounds that hold for every queued ticker throughout the
loop: attempts within budget, no-data strictly below the confirmation
threshold, and a duplicate-free queue. -/
def CounterInv (cfg : Config) (s : LoaderState) : Prop :=
  s.pending.Nodup ∧
  ∀ t ∈ s.pending,
    s.attemptCounts t ≤ cfg.maxRetriesPerTicker ∧
    s.noDataCounts t < cfg.noDataConfirmations

/-- A configuration and an always-raising provider for the termination
witness. -/
def cfgW10 : Config := ⟨2, 1, 0, 2, 0⟩

/-- An always-failing provider. -/
def provW10 : Nat → List String → Outcome := fun _ _ => .raises

/-- All tickers holding a terminal disposition: succeeded,
confirmed-no-data, or permanently failed. -/
def disposedOf (s : LoaderState) : List String :=
  s.succeededTickers ++ s.confirmedNoData ++ s.failedTickers

/-- The provider contract on response shapes: a single-ticker shaped
frame only answers one-ticker batches (the spec scopes the dropped
grouping dimension to batch size 1). -/
def WellShapedProvider (provider : Nat → List String → Outcome) : Prop :=
  ∀ idx (b : List String) (rows0 : List RawRow),
    2 ≤ b.length → provider idx b ≠ .ok (.singleFrame rows0)

/-- The disposition bookkeeping invariant: the queue and the disposition
record are duplicate-free and disjoint, and together they hold exactly
the deduplicated ticker universe. -/
def PartitionInv (u : List String) (s : LoaderState) : Prop :=
  s.pending.Nodup ∧
  (disposedOf s).Nodup ∧
  (∀ t ∈ s.pending, t ∉ disposedOf s) ∧
  (∀ t, (t ∈ s.pending ∨ t ∈ disposedOf s) ↔ t ∈ u)

/-- The accounting property claimed for
`download_historical_daily_prices`: first-seen-order deduplication seeds
the queue, and a clean completion gives every distinct input ticker
exactly one terminal disposition, the three disposition counts summing
to the deduplicated total. -/
def DownloadAccounting (cfg : Config) (provider : Nat → List String → Outcome)
    (tickers : List String) : Prop :=
  (dedupFirst tickers).Sublist tickers ∧
  (dedupFirst tickers).Nodup ∧
  (∀ t, t ∈ dedupFirst tickers ↔ t ∈ tickers) ∧
  (initState tickers).pending = dedupFirst tickers ∧
  ∀ fuel (s2 : LoaderState) (trace : List RoundOut),
    runLoop cfg provider fuel 1 (initState tickers) [] = some (s2, trace) →
    s2.pending = [] ∧
    (∀ t, t ∈ dedupFirst tickers →
      (t ∈ s2.succeededTickers ∨ t ∈ s2.confirmedNoData ∨ t ∈ s2.failedTickers)) ∧
    (disposedOf s2).Nodup ∧
    s2.succeededTickers.length + s2.confirmedNoData.length + s2.failedTickers.length =
      (dedupFirst tickers).length

theorem classifyMulti_success_eq (cols : List (String × List RawRow)) (b : List String) :
    (classifyMulti cols b).success =
      b.filter (fun t => decide (t ∈ cols.map Prod.fst ∧ subFrame cols t ≠ [])) := by
  induction b with
  | nil => rfl
  | cons t ts ih =>
    by_cases h1 : t ∈ cols.map Prod.fst
    · by_cases h2 : subFrame cols t = []
      · rw [classifyMulti, if_pos h1, if_pos h2, List.filter_cons]; simp [h1, h2, ih]
      · rw [classifyMulti, if_pos h1, if_neg h2, List.filter_cons]; simp [h1, h2, ih]
    · rw [classifyMulti, if_neg h1, List.filter_cons]; simp [h1, ih]

theorem classifyMulti_noData_eq (cols : List (String × List RawRow)) (b : List String) :
    (classifyMulti cols b).noData =
      b.filter (fun t => decide (t ∈ cols.map Prod.fst ∧ subFrame cols t = [])) := by
  induction b with
  | nil => rfl
  | cons t ts ih =>
    by_cases h1 : t ∈ cols.map Prod.fst
    · by_cases h2 : subFrame cols t = []
      · rw [classifyMulti, if_pos h1, if_pos h2, List.filter_cons]; simp [h1, h2, ih]
      · rw [classifyMulti, if_pos h1, if_neg h2, List.filter_cons]; simp [h1, h2, ih]
    · rw [classifyMulti, if_neg h1, List.filter_cons]; simp [h1, ih]

theorem classifyMulti_unresolved_eq (cols : List (String × List RawRow)) (b : List String) :
    (classifyMulti cols b).unresolved =
      b.filter (fun t => decide (t ∉ cols.map Prod.fst)) := by
  induction b with
  | nil => rfl
  | cons t ts ih =>
    by_cases h1 : t ∈ cols.map Prod.fst
    · by_cases h2 : subFrame cols t = []
      · rw [classifyMulti, if_pos h1, if_pos h2, List.filter_cons]; simp [h1, h2, ih]
      · rw [classifyMulti, if_pos h1, if_neg h2, List.filter_cons]; simp [h1, h2, ih]
    · rw [classifyMulti, if_neg h1, List.filter_cons]; simp [h1, ih]

theorem classifyMulti_rows_eq (cols : List (String × List RawRow)) (b : List String) :
    (classifyMulti cols b).rows =
      (b.map (fun t =>
        if t ∈ cols.map Prod.fst ∧ subFrame cols t ≠ [] then
          (subFrame cols t).map (emitRow t)
        else [])).flatten := by
  induction b with
  | nil => rfl
  | cons t ts ih =>
    by_cases h1 : t ∈ cols.map Prod.fst
    · by_cases h2 : subFrame cols t = []
      · rw [classifyMulti, if_pos h1, if_pos h2]; simp [h1, h2, ih]
      · rw [classifyMulti, if_pos h1, if_neg h2]; simp [h1, h2, ih]
    · rw [classifyMulti, if_neg h1]; simp [h1, ih]

/-- Membership characterization for the succeeded set. -/
theorem mem_extract_success (raw : Raw) (batch : List String) (t : String) :
    t ∈ (extractYfinanceBatch raw batch).success ↔
      (∃ cols, raw = Raw.multiFrame cols ∧ t ∈ batch ∧
        t ∈ cols.map Prod.fst ∧ subFrame cols t ≠ []) ∨
      (∃ rows0 t0 ts, raw = Raw.singleFrame rows0 ∧ batch = t0 :: ts ∧ t = t0 ∧
        rows0.filter (fun r => !r.allNA) ≠ []) := by
  cases raw with
  | emptyFrame => simp [extractYfinanceBatch]
  | multiFrame cols =>
    rw [extractYfinanceBatch, classifyMulti_success_eq]
    simp [List.mem_filter]
  | singleFrame rows0 =>
    cases batch with
    | nil => simp [extractYfinanceBatch]
    | cons t0 ts =>
      rw [extractYfinanceBatch]
      by_cases h : rows0.filter (fun r => !r.allNA) = []
      · rw [if_pos h]
        constructor
        · intro ht; cases ht
        · rintro (⟨cols, hcon, _⟩ | ⟨r1, t1, ts1, he, hb, ht1, hne⟩)
          · exact Raw.noConfusion hcon
          · injection he with he1; subst he1; exact absurd h hne
      · rw [if_neg h]
        constructor
        · intro ht
          have ht0 : t = t0 := by simpa using ht
          exact Or.inr ⟨rows0, t0, ts, rfl, rfl, ht0, h⟩
        · rintro (⟨cols, hcon, _⟩ | ⟨r1, t1, ts1, he, hb, ht1, _⟩)
          · exact Raw.noConfusion hcon
          · injection hb with hb1 _; subst ht1; subst hb1; simp

/-- Membership characterization for the no-data set. -/
theorem mem_extract_noData (raw : Raw) (batch : List String) (t : String) :
    t ∈ (extractYfinanceBatch raw batch).noData ↔
      (∃ cols, raw = Raw.multiFrame cols ∧ t ∈ batch ∧
        t ∈ cols.map Prod.fst ∧ subFrame cols t = []) ∨
      (∃ rows0 t0 ts, raw = Raw.singleFrame rows0 ∧ batch = t0 :: ts ∧ t = t0 ∧
        rows0.filter (fun r => !r.allNA) = []) := by
  cases raw with
  | emptyFrame => simp [extractYfinanceBatch]
  | multiFrame cols =>
    rw [extractYfinanceBatch, classifyMulti_noData_eq]
    simp [List.mem_filter]
  | singleFrame rows0 =>
    cases batch with
    | nil => simp [extractYfinanceBatch]
    | cons t0 ts =>
      rw [extractYfinanceBatch]
      by_cases h : rows0.filter (fun r => !r.allNA) = []
      · rw [if_pos h]
        constructor
        · intro ht
          have ht0 : t = t0 := by simpa using ht
          exact Or.inr ⟨rows0, t0, ts, rfl, rfl, ht0, h⟩
        · rintro (⟨cols, hcon, _⟩ | ⟨r1, t1, ts1, he, hb, ht1, _⟩)
          · exact Raw.noConfusion hcon
          · injection hb with hb1 _; subst ht1; subst hb1; simp
      · rw [if_neg h]
        constructor
        · intro ht; cases ht
        · rintro (⟨cols, hcon, _⟩ | ⟨r1, t1, ts1, he, hb, ht1, hne⟩)
          · exact Raw.noConfusion hcon
          · injection he with he1; subst he1; exact absurd hne h

/-- Membership characterization for the unresolved set. -/
theorem mem_extract_unresolved (raw : Raw) (batch : List String) (t : String) :
    t ∈ (extractYfinanceBatch raw batch).unresolved ↔
      (raw = Raw.emptyFrame ∧ t ∈ batch) ∨
      (∃ cols, raw = Raw.multiFrame cols ∧ t ∈ batch ∧ t ∉ cols.map Prod.fst) := by
  cases raw with
  | emptyFrame => simp [extractYfinanceBatch]
  | multiFrame cols =>
    rw [extractYfinanceBatch, classifyMulti_unresolved_eq]
    simp [List.mem_filter]
  | singleFrame rows0 =>
    cases batch with
    | nil => simp [extractYfinanceBatch]
    | cons t0 ts =>
      rw [extractYfinanceBatch]
      by_cases h : rows0.filter (fun r => !r.allNA) = []
      · rw [if_pos h]
        constructor
        · intro ht; cases ht
        · rintro (⟨he, _⟩ | ⟨cols, he, _, _⟩) <;> exact Raw.noConfusion he
      · rw [if_neg h]
        constructor
        · intro ht; cases ht
        · rintro (⟨he, _⟩ | ⟨cols, he, _, _⟩) <;> exact Raw.noConfusion he

/-- The three classification lists never name a ticker outside the batch. -/
theorem extract_success_subset (raw : Raw) (batch : List String) :
    ∀ t ∈ (extractYfinanceBatch raw batch).success, t ∈ batch := by
  intro t ht
  rcases (mem_extract_success raw batch t).mp ht with
    ⟨cols, _, hb, _, _⟩ | ⟨rows0, t0, ts, _, hb, ht0, _⟩
  · exact hb
  · subst ht0; simp [hb]

theorem extract_noData_subset (raw : Raw) (batch : List String) :
    ∀ t ∈ (extractYfinanceBatch raw batch).noData, t ∈ batch := by
  intro t ht
  rcases (mem_extract_noData raw batch t).mp ht with
    ⟨cols, _, hb, _, _⟩ | ⟨rows0, t0, ts, _, hb, ht0, _⟩
  · exact hb
  · subst ht0; simp [hb]

theorem extract_unresolved_subset (raw : Raw) (batch : List String) :
    ∀ t ∈ (extractYfinanceBatch raw batch).unresolved, t ∈ batch := by
  intro t ht
  rcases (mem_extract_unresolved raw batch t).mp ht with ⟨_, hb⟩ | ⟨cols, _, hb, _⟩ <;>
    exact hb

/-- No ticker is classified both succeeded and no-data. -/
theorem extract_success_noData_disjoint (raw : Raw) (batch : List String) :
    ∀ t ∈ (extractYfinanceBatch raw batch).success,
      t ∉ (extractYfinanceBatch raw batch).noData := by
  intro t hs hn
  rcases (mem_extract_success raw batch t).mp hs with
    ⟨cols, hr, _, _, hne⟩ | ⟨rows0, t0, ts, hr, hb, ht0, hne⟩
  · rcases (mem_extract_noData raw batch t).mp hn with
      ⟨cols2, hr2, _, _, heq⟩ | ⟨rows2, _, _, hr2, _, _, _⟩
    · rw [hr] at hr2; cases hr2; exact hne heq
    · rw [hr] at hr2; cases hr2
  · rcases (mem_extract_noData raw batch t).mp hn with
      ⟨cols2, hr2, _, _, _⟩ | ⟨rows2, _, _, hr2, _, _, heq⟩
    · rw [hr] at hr2; cases hr2
    · rw [hr] at hr2; cases hr2; exact hne heq

/-- No ticker is classified both succeeded and unresolved. -/
theorem extract_success_unresolved_disjoint (raw : Raw) (batch : List String) :
    ∀ t ∈ (extractYfinanceBatch raw batch).success,
      t ∉ (extractYfinanceBatch raw batch).unresolved := by
  intro t hs hn
  rcases (mem_extract_success raw batch t).mp hs with
    ⟨cols, hr, _, hc, _⟩ | ⟨rows0, t0, ts, hr, hb, ht0, _⟩
  · rcases (mem_extract_unresolved raw batch t).mp hn with ⟨hr2, _⟩ | ⟨cols2, hr2, _, hnc⟩
    · rw [hr] at hr2; cases hr2
    · rw [hr] at hr2; cases hr2; exact hnc hc
  · rcases (mem_extract_unresolved raw batch t).mp hn with ⟨hr2, _⟩ | ⟨cols2, hr2, _, _⟩ <;>
      rw [hr] at hr2 <;> cases hr2

/-- No ticker is classified both no-data and unresolved. -/
theorem extract_noData_unresolved_disjoint (raw : Raw) (batch : List String) :
    ∀ t ∈ (extractYfinanceBatch raw batch).noData,
      t ∉ (extractYfinanceBatch raw batch).unresolved := by
  intro t hs hn
  rcases (mem_extract_noData raw batch t).mp hs with
    ⟨cols, hr, _, hc, _⟩ | ⟨rows0, t0, ts, hr, hb, ht0, _⟩
  · rcases (mem_extract_unresolved raw batch t).mp hn with ⟨hr2, _⟩ | ⟨cols2, hr2, _, hnc⟩
    · rw [hr] at hr2; cases hr2
    · rw [hr] at hr2; cases hr2; exact hnc hc
  · rcases (mem_extract_unresolved raw batch t).mp hn with ⟨hr2, _⟩ | ⟨cols2, hr2, _, _⟩ <;>
      rw [hr] at hr2 <;> cases hr2

/-- Duplicate-free classification lists for a duplicate-free batch. -/
theorem extract_success_nodup (raw : Raw) (batch : List String) (hb : batch.Nodup) :
    (extractYfinanceBatch raw batch).success.Nodup := by
  cases raw with
  | emptyFrame => simp [extractYfinanceBatch]
  | multiFrame cols => rw [extractYfinanceBatch, classifyMulti_success_eq]; exact hb.filter _
  | singleFrame rows0 =>
    cases batch with
    | nil => simp [extractYfinanceBatch]
    | cons t0 ts =>
      rw [extractYfinanceBatch]
      by_cases h : rows0.filter (fun r => !r.allNA) = []
      · rw [if_pos h]; simp
      · rw [if_neg h]; simp

theorem extract_noData_nodup (raw : Raw) (batch : List String) (hb : batch.Nodup) :
    (extractYfinanceBatch raw batch).noData.Nodup := by
  cases raw with
  | emptyFrame => simp [extractYfinanceBatch]
  | multiFrame cols => rw [extractYfinanceBatch, classifyMulti_noData_eq]; exact hb.filter _
  | singleFrame rows0 =>
    cases batch with
    | nil => simp [extractYfinanceBatch]
    | cons t0 ts =>
      rw [extractYfinanceBatch]
      by_cases h : rows0.filter (fun r => !r.allNA) = []
      · rw [if_pos h]; simp
      · rw [if_neg h]; simp

theorem extract_unresolved_nodup (raw : Raw) (batch : List String) (hb : batch.Nodup) :
    (extractYfinanceBatch raw batch).unresolved.Nodup := by
  cases raw with
  | emptyFrame => exact hb
  | multiFrame cols => rw [extractYfinanceBatch, classifyMulti_unresolved_eq]; exact hb.filter _
  | singleFrame rows0 =>
    cases batch with
    | nil => simp [extractYfinanceBatch]
    | cons t0 ts =>
      rw [extractYfinanceBatch]
      by_cases h : rows0.filter (fun r => !r.allNA) = []
      · rw [if_pos h]; simp
      · rw [if_neg h]; simp

/-- Coverage: when the response shape is legal for the batch (a
single-ticker shaped frame only answers a one-ticker batch), every
requested ticker lands in one of the three classification lists. -/
theorem extract_covers (raw : Raw) (batch : List String)
    (hshape : ∀ rows0, raw = Raw.singleFrame rows0 → batch.length = 1) :
    ∀ t ∈ batch,
      t ∈ (extractYfinanceBatch raw batch).success ∨
      t ∈ (extractYfinanceBatch raw batch).noData ∨
      t ∈ (extractYfinanceBatch raw batch).unresolved := by
  intro t ht
  cases raw with
  | emptyFrame =>
    right; right; exact (mem_extract_unresolved _ _ _).mpr (Or.inl ⟨rfl, ht⟩)
  | multiFrame cols =>
    by_cases h1 : t ∈ cols.map Prod.fst
    · by_cases h2 : subFrame cols t = []
      · right; left
        exact (mem_extract_noData _ _ _).mpr (Or.inl ⟨cols, rfl, ht, h1, h2⟩)
      · left
        exact (mem_extract_success _ _ _).mpr (Or.inl ⟨cols, rfl, ht, h1, h2⟩)
    · right; right
      exact (mem_extract_unresolved _ _ _).mpr (Or.inr ⟨cols, rfl, ht, h1⟩)
  | singleFrame rows0 =>
    cases batch with
    | nil => cases ht
    | cons t0 ts =>
      have hlen := hshape rows0 rfl
      have hts : ts = [] := by
        cases ts with
        | nil => rfl
        | cons a as => simp at hlen
      subst hts
      have ht0 : t = t0 := by simpa using ht
      subst ht0
      by_cases h : rows0.filter (fun r => !r.allNA) = []
      · right; left
        exact (mem_extract_noData _ _ _).mpr (Or.inr ⟨rows0, t, [], rfl, rfl, rfl, h⟩)
      · left
        exact (mem_extract_success _ _ _).mpr (Or.inr ⟨rows0, t, [], rfl, rfl, rfl, h⟩)

theorem mem_dedupFirstAux (seen l : List String) (t : String) :
    t ∈ dedupFirstAux seen l ↔ t ∈ l ∧ t ∉ seen := by
  induction l generalizing seen with
  | nil => simp [dedupFirstAux]
  | cons a as ih =>
    by_cases ha : a ∈ seen
    · rw [dedupFirstAux, if_pos ha, ih, List.mem_cons]
      constructor
      · rintro ⟨h1, h2⟩; exact ⟨Or.inr h1, h2⟩
      · rintro ⟨h1 | h1, h2⟩
        · subst h1; exact absurd ha h2
        · exact ⟨h1, h2⟩
    · rw [dedupFirstAux, if_neg ha, List.mem_cons, List.mem_cons, ih]
      constructor
      · rintro (h1 | ⟨h1, h2⟩)
        · subst h1; exact ⟨Or.inl rfl, ha⟩
        · exact ⟨Or.inr h1, fun hs => h2 (List.mem_cons_of_mem _ hs)⟩
      · rintro ⟨h1 | h1, h2⟩
        · exact Or.inl h1
        · by_cases hta : t = a
          · exact Or.inl hta
          · refine Or.inr ⟨h1, fun hs => ?_⟩
            rcases List.mem_cons.mp hs with h3 | h3
            · exact hta h3
            · exact h2 h3

theorem mem_dedupFirst (l : List String) (t : String) :
    t ∈ dedupFirst l ↔ t ∈ l := by
  rw [dedupFirst, mem_dedupFirstAux]; simp

theorem dedupFirstAux_sublist (seen l : List String) :
    (dedupFirstAux seen l).Sublist l := by
  induction l generalizing seen with
  | nil => simp [dedupFirstAux]
  | cons a as ih =>
    by_cases ha : a ∈ seen
    · rw [dedupFirstAux, if_pos ha]
      exact (ih seen).cons a
    · rw [dedupFirstAux, if_neg ha]
      exact (ih (a :: seen)).cons₂ a

theorem dedupFirst_sublist (l : List String) : (dedupFirst l).Sublist l :=
  dedupFirstAux_sublist [] l

theorem dedupFirstAux_nodup (seen l : List String) :
    (dedupFirstAux seen l).Nodup := by
  induction l generalizing seen with
  | nil => simp [dedupFirstAux]
  | cons a as ih =>
    by_cases ha : a ∈ seen
    · rw [dedupFirstAux, if_pos ha]; exact ih seen
    · rw [dedupFirstAux, if_neg ha]
      refine List.nodup_cons.mpr ⟨fun hmem => ?_, ih (a :: seen)⟩
      exact ((mem_dedupFirstAux _ _ _).mp hmem).2 (List.mem_cons_self _ _)

theorem dedupFirst_nodup (l : List String) : (dedupFirst l).Nodup :=
  dedupFirstAux_nodup [] l

theorem roundStep_raises (cfg : Config) (s : LoaderState) :
    roundStep cfg .raises s =
      roundTransport cfg s (s.pending.take cfg.batchSize) (s.pending.drop cfg.batchSize) := rfl

theorem roundStep_ok (cfg : Config) (s : LoaderState) (raw : Raw) :
    roundStep cfg (.ok raw) s =
      roundSuccess cfg s (s.pending.take cfg.batchSize) (s.pending.drop cfg.batchSize) raw := rfl

theorem failReenq_eq (cfg : Config) (s : LoaderState) (batch : List String) :
    failReenq cfg s batch =
      batch.filter (fun t => decide (s.attemptCounts t + 1 ≤ cfg.maxRetriesPerTicker)) :=
  List.filter_congr (by intro u hu; simp [failAttempt, hu])

theorem failNewFailed_eq (cfg : Config) (s : LoaderState) (batch : List String) :
    failNewFailed cfg s batch =
      batch.filter (fun t => decide (cfg.maxRetriesPerTicker < s.attemptCounts t + 1)) :=
  List.filter_congr (by intro u hu; simp [failAttempt, hu])

theorem noDataMid_of_noData (s : LoaderState) (raw : Raw) (batch : List String) (t : String)
    (ht : t ∈ (extractYfinanceBatch raw batch).noData) :
    noDataMid s (extractYfinanceBatch raw batch) t = s.noDataCounts t + 1 := by
  have h1 : t ∉ (extractYfinanceBatch raw batch).success :=
    fun h => extract_success_noData_disjoint raw batch t h ht
  simp [noDataMid, h1, ht]

theorem noDataRetryOf_eq (cfg : Config) (s : LoaderState) (raw : Raw) (batch : List String) :
    noDataRetryOf cfg s (extractYfinanceBatch raw batch) =
      (extractYfinanceBatch raw batch).noData.filter
        (fun t => decide (s.noDataCounts t + 1 < cfg.noDataConfirmations)) :=
  List.filter_congr (by intro u hu; rw [noDataMid_of_noData s raw batch u hu])

theorem noDataConfirmedOf_eq (cfg : Config) (s : LoaderState) (raw : Raw) (batch : List String) :
    noDataConfirmedOf cfg s (extractYfinanceBatch raw batch) =
      (extractYfinanceBatch raw batch).noData.filter
        (fun t => decide (cfg.noDataConfirmations ≤ s.noDataCounts t + 1)) :=
  List.filter_congr (by intro u hu; rw [noDataMid_of_noData s raw batch u hu])

theorem unresReenqOf_eq (cfg : Config) (s : LoaderState) (e : Extracted) :
    unresReenqOf cfg s e =
      e.unresolved.filter
        (fun t => decide (s.attemptCounts t + 1 ≤ cfg.maxRetriesPerTicker)) :=
  List.filter_congr (by intro u hu; simp [attemptAfter, hu])

theorem unresFailedOf_eq (cfg : Config) (s : LoaderState) (e : Extracted) :
    unresFailedOf cfg s e =
      e.unresolved.filter
        (fun t => decide (cfg.maxRetriesPerTicker < s.attemptCounts t + 1)) :=
  List.filter_congr (by intro u hu; simp [attemptAfter, hu])

/-- A duplicate-free list has disjoint take and drop parts. -/
theorem take_drop_not_mem (l : List String) (n : Nat) (h : l.Nodup) :
    ∀ t ∈ l.take n, t ∉ l.drop n := by
  have hnodup : (l.take n ++ l.drop n).Nodup := by
    rw [List.take_append_drop]; exact h
  have hd := (List.nodup_append.mp hnodup).2.2
  intro t ht hdp
  exact hd ht hdp

/-- **C1**: when the provider call for a batch raises, every ticker of
that batch has `attempt_count` incremented by exactly one and
`no_data_count` reset to zero; it is re-enqueued at the back of the
pending queue when its new `attempt_count` is within
`max_retries_per_ticker`, and otherwise is added to the
permanently-failed set and counted as finalized; the Normalizer is not
invoked that round. -/
theorem transport_failure_per_ticker (cfg : Config) (s : LoaderState) (t : String)
    (hnd : s.pending.Nodup) (ht : t ∈ s.pending.take cfg.batchSize) :
    TransportRoundEffect cfg s t := by
  have hpend : (roundStep cfg .raises s).state.pending =
      s.pending.drop cfg.batchSize ++
        (s.pending.take cfg.batchSize).filter
          (fun u => decide (s.attemptCounts u + 1 ≤ cfg.maxRetriesPerTicker)) := by
    rw [roundStep_raises]
    show s.pending.drop cfg.batchSize ++ failReenq cfg s (s.pending.take cfg.batchSize) = _
    rw [failReenq_eq]
  refine ⟨?_, ?_, rfl, hpend, ?_, ?_⟩
  · rw [roundStep_raises]
    show failAttempt s (s.pending.take cfg.batchSize) t = _
    simp [failAttempt, ht]
  · rw [roundStep_raises]
    show failNoData s (s.pending.take cfg.batchSize) t = 0
    simp [failNoData, ht]
  · intro hbudget
    have hmem : t ∈ (s.pending.take cfg.batchSize).filter
        (fun u => decide (s.attemptCounts u + 1 ≤ cfg.maxRetriesPerTicker)) :=
      List.mem_filter.mpr ⟨ht, by simpa using hbudget⟩
    constructor
    · rw [hpend]; exact List.mem_append_right _ hmem
    · rw [roundStep_raises]
      show t ∈ failReenq cfg s (s.pending.take cfg.batchSize)
      rw [failReenq_eq]; exact hmem
  · intro hexh
    have hmem : t ∈ (s.pending.take cfg.batchSize).filter
        (fun u => decide (cfg.maxRetriesPerTicker < s.attemptCounts u + 1)) :=
      List.mem_filter.mpr ⟨ht, by simpa using hexh⟩
    refine ⟨?_, ?_, hmem, ?_⟩
    · rw [roundStep_raises]
      show t ∈ s.failedTickers ++ failNewFailed cfg s (s.pending.take cfg.batchSize)
      rw [failNewFailed_eq]
      exact List.mem_append_right _ hmem
    · rw [hpend]
      intro hin
      rcases List.mem_append.mp hin with hin | hin
      · exact take_drop_not_mem s.pending cfg.batchSize hnd t ht hin
      · have := (List.mem_filter.mp hin).2
        simp at this
        omega
    · rw [roundStep_raises]
      show s.finalized + (failNewFailed cfg s (s.pending.take cfg.batchSize)).length = _
      rw [failNewFailed_eq]

/-- Witness for the transport-failure claim at a concrete input:
two tickers, retry budget 1, both counters zero. -/
theorem transport_failure_per_ticker_witness :
    (initState ["A", "B"]).pending.Nodup ∧
    "A" ∈ (initState ["A", "B"]).pending.take 2 ∧
    TransportRoundEffect ⟨2, 1, 3/2, 2, 0⟩ (initState ["A", "B"]) "A" :=
  ⟨by decide, by decide,
    transport_failure_per_ticker ⟨2, 1, 3/2, 2, 0⟩ (initState ["A", "B"]) "A"
      (by decide) (by decide)⟩

theorem roundSuccess_pending (cfg : Config) (s : LoaderState) (batch rest : List String)
    (raw : Raw) :
    (roundSuccess cfg s batch rest raw).state.pending =
      rest ++ noDataRetryOf cfg s (extractYfinanceBatch raw batch) ++
        unresReenqOf cfg s (extractYfinanceBatch raw batch) := rfl

theorem roundSuccess_attempt (cfg : Config) (s : LoaderState) (batch rest : List String)
    (raw : Raw) :
    (roundSuccess cfg s batch rest raw).state.attemptCounts =
      attemptAfter s (extractYfinanceBatch raw batch) := rfl

theorem roundSuccess_noData (cfg : Config) (s : LoaderState) (batch rest : List String)
    (raw : Raw) :
    (roundSuccess cfg s batch rest raw).state.noDataCounts =
      noDataAfter s (extractYfinanceBatch raw batch) := rfl

theorem roundSuccess_failed (cfg : Config) (s : LoaderState) (batch rest : List String)
    (raw : Raw) :
    (roundSuccess cfg s batch rest raw).state.failedTickers =
      s.failedTickers ++ unresFailedOf cfg s (extractYfinanceBatch raw batch) := rfl

theorem roundSuccess_finalized (cfg : Config) (s : LoaderState) (batch rest : List String)
    (raw : Raw) :
    (roundSuccess cfg s batch rest raw).state.finalized =
      s.finalized + (extractYfinanceBatch raw batch).success.length +
        (noDataConfirmedOf cfg s (extractYfinanceBatch raw batch)).length +
        (unresFailedOf cfg s (extractYfinanceBatch raw batch)).length := rfl

theorem roundSuccess_rows (cfg : Config) (s : LoaderState) (batch rest : List String)
    (raw : Raw) :
    (roundSuccess cfg s batch rest raw).state.rows =
      s.rows ++ (extractYfinanceBatch raw batch).rows := rfl

theorem roundSuccess_succeeded (cfg : Config) (s : LoaderState) (batch rest : List String)
    (raw : Raw) :
    (roundSuccess cfg s batch rest raw).state.succeededTickers =
      s.succeededTickers ++ (extractYfinanceBatch raw batch).success := rfl

theorem roundSuccess_confirmed (cfg : Config) (s : LoaderState) (batch rest : List String)
    (raw : Raw) :
    (roundSuccess cfg s batch rest raw).state.confirmedNoData =
      s.confirmedNoData ++ noDataConfirmedOf cfg s (extractYfinanceBatch raw batch) := rfl

theorem roundSuccess_retried (cfg : Config) (s : LoaderState) (batch rest : List String)
    (raw : Raw) :
    (roundSuccess cfg s batch rest raw).retried =
      noDataRetryOf cfg s (extractYfinanceBatch raw batch) ++
        unresReenqOf cfg s (extractYfinanceBatch raw batch) := rfl

/-- **C2**: after a successful provider call, every ticker the
Normalizer classifies unresolved gets `no_data_count = 0` and
`attempt_count += 1` — the transport-failure treatment applied to the
unresolved tickers only — and is re-enqueued when within budget,
otherwise permanently failed and counted as finalized. -/
theorem unresolved_per_ticker (cfg : Config) (s : LoaderState) (raw : Raw) (t : String)
    (hnd : s.pending.Nodup)
    (ht : t ∈ (extractYfinanceBatch raw (s.pending.take cfg.batchSize)).unresolved) :
    UnresolvedRoundEffect cfg s raw t := by
  refine ⟨?_, ?_, ?_, ?_, ?_⟩
  · rw [roundStep_ok, roundSuccess_noData]
    simp [noDataAfter, ht]
  · rw [roundStep_ok, roundSuccess_attempt]
    simp [attemptAfter, ht]
  · intro u hu
    rw [roundStep_ok, roundSuccess_attempt]
    simp [attemptAfter, hu]
  · intro hbudget
    have hmem : t ∈ unresReenqOf cfg s
        (extractYfinanceBatch raw (s.pending.take cfg.batchSize)) := by
      rw [unresReenqOf_eq]
      exact List.mem_filter.mpr ⟨ht, by simpa using hbudget⟩
    constructor
    · rw [roundStep_ok, roundSuccess_pending]
      exact List.mem_append_right _ hmem
    · rw [roundStep_ok, roundSuccess_retried]
      exact List.mem_append_right _ hmem
  · intro hexh
    have hmem : t ∈ (extractYfinanceBatch raw (s.pending.take cfg.batchSize)).unresolved.filter
        (fun u => decide (cfg.maxRetriesPerTicker < s.attemptCounts u + 1)) :=
      List.mem_filter.mpr ⟨ht, by simpa using hexh⟩
    refine ⟨?_, ?_, hmem, ?_⟩
    · rw [roundStep_ok, roundSuccess_failed, unresFailedOf_eq]
      exact List.mem_append_right _ hmem
    · rw [roundStep_ok, roundSuccess_pending]
      intro hin
      rcases List.mem_append.mp hin with hin | hin
      · rcases List.mem_append.mp hin with hin | hin
        · exact take_drop_not_mem s.pending cfg.batchSize hnd t
            (extract_unresolved_subset raw _ t ht) hin
        · have hnod : t ∈ (extractYfinanceBatch raw (s.pending.take cfg.batchSize)).noData :=
            List.mem_filter.mp ((noDataRetryOf_eq cfg s raw _ ▸ hin)) |>.1
          exact extract_noData_unresolved_disjoint raw _ t hnod ht
      · rw [unresReenqOf_eq] at hin
        have := (List.mem_filter.mp hin).2
        simp at this
        omega
    · rw [roundStep_ok, roundSuccess_finalized, unresFailedOf_eq]

/-- Witness for the unresolved-ticker claim: batch `["A"]`, a MultiIndex
response naming only `"B"`, so `"A"` is unresolved. -/
theorem unresolved_per_ticker_witness :
    (initState ["A"]).pending.Nodup ∧
    "A" ∈ (extractYfinanceBatch (.multiFrame [("B", [⟨0, .num 1, .num 1, .num 1, .num 1,
      .num 1, .num 1⟩])]) ((initState ["A"]).pending.take 2)).unresolved ∧
    UnresolvedRoundEffect ⟨2, 1, 3/2, 2, 0⟩ (initState ["A"])
      (.multiFrame [("B", [⟨0, .num 1, .num 1, .num 1, .num 1, .num 1, .num 1⟩])]) "A" :=
  ⟨by decide, by decide,
    unresolved_per_ticker ⟨2, 1, 3/2, 2, 0⟩ (initState ["A"])
      (.multiFrame [("B", [⟨0, .num 1, .num 1, .num 1, .num 1, .num 1, .num 1⟩])]) "A"
      (by decide) (by decide)⟩

/-- A round never puts a ticker into the queue that was not already
pending: the successor queue is drawn from the dequeued batch and the
untouched remainder. -/
theorem roundStep_pending_subset (cfg : Config) (o : Outcome) (s : LoaderState) :
    ∀ t ∈ (roundStep cfg o s).state.pending, t ∈ s.pending := by
  intro t hin
  cases o with
  | raises =>
    rw [roundStep_raises] at hin
    rcases List.mem_append.mp hin with h | h
    · exact List.drop_subset _ _ h
    · exact List.take_subset _ _ ((List.filter_sublist _).subset h)
  | ok raw =>
    rw [roundStep_ok, roundSuccess_pending] at hin
    rcases List.mem_append.mp hin with h | h
    · rcases List.mem_append.mp h with h | h
      · exact List.drop_subset _ _ h
      · exact List.take_subset _ _
          (extract_noData_subset raw _ t ((List.filter_sublist _).subset h))
    · exact List.take_subset _ _
        (extract_unresolved_subset raw _ t ((List.filter_sublist _).subset h))

/-- The confirmed-no-data record only grows across a round. -/
theorem roundStep_confirmed_mono (cfg : Config) (o : Outcome) (s : LoaderState) :
    ∀ t ∈ s.confirmedNoData, t ∈ (roundStep cfg o s).state.confirmedNoData := by
  intro t hin
  cases o with
  | raises => exact hin
  | ok raw =>
    rw [roundStep_ok, roundSuccess_confirmed]
    exact List.mem_append_left _ hin

/-- **C3**: after a successful provider call, every no-data ticker has
`no_data_count` incremented by one; at
`no_data_count >= no_data_confirmations` it is finalized as
confirmed-no-data and never re-enters the queue, below the threshold it
is re-enqueued; the count is reset to zero by a transport failure or an
unresolved classification, so the required empty observations need not
be consecutive. -/
theorem no_data_per_ticker (cfg : Config) (s : LoaderState) (raw : Raw) (t : String)
    (hnd : s.pending.Nodup)
    (ht : t ∈ (extractYfinanceBatch raw (s.pending.take cfg.batchSize)).noData) :
    NoDataRoundEffect cfg s raw t := by
  have hnotu : t ∉ (extractYfinanceBatch raw (s.pending.take cfg.batchSize)).unresolved :=
    extract_noData_unresolved_disjoint raw _ t ht
  have hnots : t ∉ (extractYfinanceBatch raw (s.pending.take cfg.batchSize)).success :=
    fun h => extract_success_noData_disjoint raw _ t h ht
  refine ⟨?_, ?_, ?_, ?_, ?_, ?_⟩
  · rw [roundStep_ok, roundSuccess_noData]
    simp [noDataAfter, noDataMid, hnotu, hnots, ht]
  · intro hconf
    constructor
    · rw [roundStep_ok, roundSuccess_confirmed, noDataConfirmedOf_eq]
      exact List.mem_append_right _ (List.mem_filter.mpr ⟨ht, by simpa using hconf⟩)
    · rw [roundStep_ok, roundSuccess_pending]
      intro hin
      rcases List.mem_append.mp hin with hin | hin
      · rcases List.mem_append.mp hin with hin | hin
        · exact take_drop_not_mem s.pending cfg.batchSize hnd t
            (extract_noData_subset raw _ t ht) hin
        · rw [noDataRetryOf_eq] at hin
          have := (List.mem_filter.mp hin).2
          simp at this
          omega
      · rw [unresReenqOf_eq] at hin
        exact hnotu ((List.filter_sublist _).subset hin)
  · intro hretry
    have hmem : t ∈ noDataRetryOf cfg s
        (extractYfinanceBatch raw (s.pending.take cfg.batchSize)) := by
      rw [noDataRetryOf_eq]
      exact List.mem_filter.mpr ⟨ht, by simpa using hretry⟩
    constructor
    · rw [roundStep_ok, roundSuccess_pending]
      exact List.mem_append_left _ (List.mem_append_right _ hmem)
    · rw [roundStep_ok, roundSuccess_retried]
      exact List.mem_append_left _ hmem
  · intro u hu
    rw [roundStep_raises]
    show failNoData s (s.pending.take cfg.batchSize) u = 0
    simp [failNoData, hu]
  · intro u hu
    rw [roundStep_ok, roundSuccess_noData]
    simp [noDataAfter, hu]
  · intro s2 o2 hconf hpend
    refine ⟨roundStep_confirmed_mono cfg o2 s2 t hconf, fun hin => ?_⟩
    exact hpend (roundStep_pending_subset cfg o2 s2 t hin)

/-- Witness for the no-data claim: batch `["A"]`, a MultiIndex response
naming `"A"` with only all-null rows. -/
theorem no_data_per_ticker_witness :
    (initState ["A"]).pending.Nodup ∧
    "A" ∈ (extractYfinanceBatch
      (.multiFrame [("A", [⟨0, .null, .null, .null, .null, .null, .null⟩])])
      ((initState ["A"]).pending.take 2)).noData ∧
    NoDataRoundEffect ⟨2, 1, 3/2, 2, 0⟩ (initState ["A"])
      (.multiFrame [("A", [⟨0, .null, .null, .null, .null, .null, .null⟩])]) "A" :=
  ⟨by decide, by decide,
    no_data_per_ticker ⟨2, 1, 3/2, 2, 0⟩ (initState ["A"])
      (.multiFrame [("A", [⟨0, .null, .null, .null, .null, .null, .null⟩])]) "A"
      (by decide) (by decide)⟩

/-- The sleep amount of a transport-failure round, as written. -/
theorem roundTransport_sleep (cfg : Config) (s : LoaderState) (batch rest : List String) :
    (roundTransport cfg s batch rest).sleep =
      (if cfg.retryBackoffSeconds ≠ 0 ∧ batch ≠ [] then
        min (cfg.retryBackoffSeconds *
          2 ^ (((batch.map (failAttempt s batch)).foldl max 0) - 1)) 60
      else 0) := rfl

/-- The sleep amount of a success round, as written. -/
theorem roundSuccess_sleep (cfg : Config) (s : LoaderState) (batch rest : List String)
    (raw : Raw) :
    (roundSuccess cfg s batch rest raw).sleep =
      (if cfg.retryBackoffSeconds ≠ 0 ∧
          ((extractYfinanceBatch raw batch).unresolved ≠ [] ∨
            noDataRetryOf cfg s (extractYfinanceBatch raw batch) ≠ []) then
        min (cfg.retryBackoffSeconds *
          2 ^ ((((extractYfinanceBatch raw batch).unresolved.map
              (attemptAfter s (extractYfinanceBatch raw batch))).foldl max
            (((noDataRetryOf cfg s (extractYfinanceBatch raw batch)).map
              (noDataMid s (extractYfinanceBatch raw batch))).foldl max 0)) - 1)) 60
      else if cfg.delaySeconds ≠ 0 ∧
          (rest ++ noDataRetryOf cfg s (extractYfinanceBatch raw batch) ++
            unresReenqOf cfg s (extractYfinanceBatch raw batch) ≠ []) then
        cfg.delaySeconds
      else 0) := rfl

/-- **C8 (counterexample)**: a reachable round whose slept duration is
not `min(retry_backoff_seconds * 2 ** (m - 1), 60)` for `m` the highest
`attempt_count` of a retried ticker.  From queue `["A"]`, two transport
failures leave `attempt_counts["A"] = 2`; the third round classifies
`"A"` no-data and re-enqueues it, and the source sleeps
`1.5 * 2 ** (1 - 1) = 1.5` (keyed off `no_data_counts["A"] = 1`), not
`min(1.5 * 2 ** (2 - 1), 60) = 3` as the claim states. -/
theorem backoff_claim_counterexample :
    (roundStep cfgC8 (.ok c8raw) c8state).retried = ["A"] ∧
    (roundStep cfgC8 (.ok c8raw) c8state).state.attemptCounts "A" = 2 ∧
    (roundStep cfgC8 (.ok c8raw) c8state).sleep = 3/2 ∧
    claimedBackoff cfgC8 (roundStep cfgC8 (.ok c8raw) c8state) = 3 ∧
    (roundStep cfgC8 (.ok c8raw) c8state).sleep ≠
      claimedBackoff cfgC8 (roundStep cfgC8 (.ok c8raw) c8state) := by
  have hsleep : (roundStep cfgC8 (.ok c8raw) c8state).sleep = 3/2 := by
    rw [roundStep_ok, roundSuccess_sleep]
    have hnd : noDataRetryOf cfgC8 c8state
        (extractYfinanceBatch c8raw (c8state.pending.take cfgC8.batchSize)) = ["A"] := by
      decide
    have hmax : (((extractYfinanceBatch c8raw
          (c8state.pending.take cfgC8.batchSize)).unresolved.map
            (attemptAfter c8state (extractYfinanceBatch c8raw
              (c8state.pending.take cfgC8.batchSize)))).foldl max
          (((noDataRetryOf cfgC8 c8state (extractYfinanceBatch c8raw
              (c8state.pending.take cfgC8.batchSize))).map
            (noDataMid c8state (extractYfinanceBatch c8raw
              (c8state.pending.take cfgC8.batchSize)))).foldl max 0)) = 1 := by
      decide
    rw [hmax]
    rw [if_pos ⟨by norm_num [cfgC8], Or.inr (by rw [hnd]; simp)⟩]
    show min (cfgC8.retryBackoffSeconds * 2 ^ (1 - 1 : Nat)) 60 = 3/2
    norm_num [cfgC8]
  have hclaim : claimedBackoff cfgC8 (roundStep cfgC8 (.ok c8raw) c8state) = 3 := by
    rw [claimedBackoff]
    have hfold : (((roundStep cfgC8 (.ok c8raw) c8state).retried.map
        (roundStep cfgC8 (.ok c8raw) c8state).state.attemptCounts).foldl max 0) = 2 := by
      decide
    rw [hfold]
    show min (cfgC8.retryBackoffSeconds * 2 ^ (2 - 1 : Nat)) 60 = 3
    norm_num [cfgC8]
  refine ⟨by decide, by decide, hsleep, hclaim, ?_⟩
  rw [hsleep, hclaim]
  norm_num

/-- **C8 (amended)**: the sleep rule the source implements.  After a
transport-failure round the process sleeps
`min(retry_backoff_seconds * 2 ** (m - 1), 60)` with `m` the largest
incremented `attempt_count` in the batch (nothing when
`retry_backoff_seconds` is zero).  After a success round it sleeps the
same formula with `m` the largest among the incremented
`no_data_counts` of the no-data retries and the incremented
`attempt_counts` of the unresolved tickers; with no retry-worthy
condition (or `retry_backoff_seconds` zero) and a non-empty queue it
sleeps the flat `delay_seconds` instead. -/
theorem sleep_rule_holds (cfg : Config) (s : LoaderState) : SleepRule cfg s := by
  constructor
  · rw [roundStep_raises, roundTransport_sleep]
    have hmap : (s.pending.take cfg.batchSize).map
        (failAttempt s (s.pending.take cfg.batchSize)) =
        (s.pending.take cfg.batchSize).map (fun t => s.attemptCounts t + 1) :=
      List.map_congr_left (by intro u hu; simp [failAttempt, hu])
    rw [hmap]
  · intro raw
    rw [roundStep_ok, roundSuccess_sleep]
    have hmapU : (extractYfinanceBatch raw (s.pending.take cfg.batchSize)).unresolved.map
        (attemptAfter s (extractYfinanceBatch raw (s.pending.take cfg.batchSize))) =
        (extractYfinanceBatch raw (s.pending.take cfg.batchSize)).unresolved.map
          (fun u => s.attemptCounts u + 1) :=
      List.map_congr_left (by intro u hu; simp [attemptAfter, hu])
    have hmapN : (noDataRetryOf cfg s
          (extractYfinanceBatch raw (s.pending.take cfg.batchSize))).map
        (noDataMid s (extractYfinanceBatch raw (s.pending.take cfg.batchSize))) =
        (noDataRetryOf cfg s (extractYfinanceBatch raw (s.pending.take cfg.batchSize))).map
          (fun u => s.noDataCounts u + 1) :=
      List.map_congr_left (by
        intro u hu
        exact noDataMid_of_noData s raw _ u ((List.filter_sublist _).subset hu))
    rw [hmapU, hmapN, noDataRetryOf_eq, unresReenqOf_eq]

theorem getLast?_cons_ne_nil {α : Type} (x : α) {l : List α} (h : l ≠ []) :
    (x :: l).getLast? = l.getLast? := by
  cases l with
  | nil => exact absurd rfl h
  | cons b t => simp [List.getLast?_cons_cons]

theorem mem_of_getLast?_eq_some {α : Type} {l : List α} {r : α} (h : l.getLast? = some r) :
    r ∈ l := by
  have hx : r ∈ l.getLast? := Option.mem_def.mpr h
  rcases List.mem_getLast?_eq_getLast hx with ⟨hne, heq⟩
  rw [heq]
  exact List.getLast_mem hne

theorem dropDuplicatesKeepLast_subset (l : List OutRow) :
    ∀ r ∈ dropDuplicatesKeepLast l, r ∈ l := by
  induction l with
  | nil => simp [dropDuplicatesKeepLast]
  | cons a rs ih =>
    intro r hr
    by_cases hdup : ∃ r2 ∈ rs, rowKey r2 = rowKey a
    · rw [dropDuplicatesKeepLast, if_pos hdup] at hr
      exact List.mem_cons_of_mem _ (ih r hr)
    · rw [dropDuplicatesKeepLast, if_neg hdup] at hr
      rcases List.mem_cons.mp hr with h | h
      · exact h ▸ List.mem_cons_self _ _
      · exact List.mem_cons_of_mem _ (ih r h)

/-- A row survives `drop_duplicates(keep="last")` exactly when it is the
last row bearing its `(Ticker, Date)` key. -/
theorem mem_dropDuplicatesKeepLast (l : List OutRow) (r : OutRow) :
    r ∈ dropDuplicatesKeepLast l ↔
      (l.filter (fun x => decide (rowKey x = rowKey r))).getLast? = some r := by
  induction l with
  | nil => simp [dropDuplicatesKeepLast]
  | cons a rs ih =>
    rw [List.filter_cons]
    by_cases hdup : ∃ r2 ∈ rs, rowKey r2 = rowKey a
    · rw [dropDuplicatesKeepLast, if_pos hdup, ih]
      by_cases hkey : rowKey a = rowKey r
      · rcases hdup with ⟨r2, hr2mem, hr2key⟩
        have hne : rs.filter (fun x => decide (rowKey x = rowKey r)) ≠ [] := by
          intro hnil
          have hmem : r2 ∈ rs.filter (fun x => decide (rowKey x = rowKey r)) :=
            List.mem_filter.mpr ⟨hr2mem, by simp [hr2key, hkey]⟩
          rw [hnil] at hmem
          cases hmem
        rw [if_pos (by simpa using hkey), getLast?_cons_ne_nil a hne]
      · rw [if_neg (by simpa using hkey)]
    · rw [dropDuplicatesKeepLast, if_neg hdup, List.mem_cons, ih]
      by_cases hkey : rowKey a = rowKey r
      · have hfil : rs.filter (fun x => decide (rowKey x = rowKey r)) = [] := by
          rw [List.filter_eq_nil_iff]
          intro x hx
          simp only [decide_eq_true_eq]
          intro hxkey
          exact hdup ⟨x, hx, hxkey.trans hkey.symm⟩
        rw [if_pos (by simpa using hkey), hfil]
        constructor
        · rintro (h | h)
          · subst h; rfl
          · exact Option.noConfusion h
        · intro h
          left
          have : a = r := by simpa using h
          exact this.symm
      · rw [if_neg (by simpa using hkey)]
        constructor
        · rintro (h | h)
          · exact absurd (h ▸ rfl) (fun hx => hkey hx)
          · exact h
        · exact Or.inr

/-- Rows surviving `drop_duplicates(keep="last")` have pairwise distinct
`(Ticker, Date)` keys. -/
theorem dropDuplicatesKeepLast_pairwise (l : List OutRow) :
    (dropDuplicatesKeepLast l).Pairwise (fun a b => rowKey a ≠ rowKey b) := by
  induction l with
  | nil => simp [dropDuplicatesKeepLast]
  | cons a rs ih =>
    by_cases hdup : ∃ r2 ∈ rs, rowKey r2 = rowKey a
    · rw [dropDuplicatesKeepLast, if_pos hdup]; exact ih
    · rw [dropDuplicatesKeepLast, if_neg hdup]
      refine List.pairwise_cons.mpr ⟨?_, ih⟩
      intro b hb heq
      exact hdup ⟨b, dropDuplicatesKeepLast_subset rs b hb, heq.symm⟩

/-- **C6**: the returned table is sorted ascending by `(Ticker, Date)`,
contains no two rows with the same key (strictly ascending keys), and a
row appears exactly when it is the last-produced row for its key. -/
theorem result_table_unique_sorted (rows : List OutRow) :
    (finalizeRows rows).Sorted rowLE ∧
    (finalizeRows rows).Pairwise (fun a b => rowKey a ≠ rowKey b) ∧
    (finalizeRows rows).Pairwise rowLT ∧
    (∀ r, r ∈ finalizeRows rows ↔
      (rows.filter (fun x => decide (rowKey x = rowKey r))).getLast? = some r) := by
  have hperm := List.perm_insertionSort rowLE (dropDuplicatesKeepLast rows)
  have hsorted : (finalizeRows rows).Sorted rowLE :=
    List.sorted_insertionSort rowLE (dropDuplicatesKeepLast rows)
  have hne : (finalizeRows rows).Pairwise (fun a b => rowKey a ≠ rowKey b) :=
    (hperm.pairwise_iff (fun h heq => h heq.symm)).mpr
      (dropDuplicatesKeepLast_pairwise rows)
  refine ⟨hsorted, hne, ?_, ?_⟩
  · refine (hsorted.and hne).imp fun {a b} h => ?_
    obtain ⟨hle, hkey⟩ := h
    rcases hle with h1 | ⟨h1, h2⟩
    · exact Or.inl h1
    · refine Or.inr ⟨h1, lt_of_le_of_ne h2 fun hd => hkey ?_⟩
      show (a.tickerV, a.dateV) = (b.tickerV, b.dateV)
      rw [h1, hd]
  · intro r
    rw [show finalizeRows rows = List.insertionSort rowLE (dropDuplicatesKeepLast rows) from rfl,
      hperm.mem_iff]
    exact mem_dropDuplicatesKeepLast rows r

/-- **C4**: when the queue empties, a non-empty permanently-failed set
produces a `DownloadFailure` whose message carries at most 20 failed
tickers in ascending alphabetical order plus the total failed count;
otherwise zero collected rows produce a `NoDataError`; otherwise the
deduplicated, sorted table is returned. -/
theorem finish_decision (s : LoaderState) : FinishRule s := by
  refine ⟨?_, ?_, ?_⟩
  · intro hf
    refine ⟨?_, ?_, ?_, ?_, ?_⟩
    · unfold finishDownload
      rw [if_pos hf]
    · exact List.Pairwise.sublist (List.take_sublist 20 _)
        (List.sorted_insertionSort _ s.failedTickers)
    · exact List.length_take_le 20 _
    · intro t ht
      exact (List.perm_insertionSort _ s.failedTickers).mem_iff.mp (List.take_subset _ _ ht)
    · intro hlen t ht
      have hl : (List.insertionSort (fun a b : String => a ≤ b) s.failedTickers).length ≤ 20 := by
        rw [List.length_insertionSort]; exact hlen
      rw [List.take_of_length_le hl]
      exact (List.perm_insertionSort _ s.failedTickers).mem_iff.mpr ht
  · intro hf hr
    unfold finishDownload
    rw [if_neg (fun hne => hne hf), if_pos hr]
  · intro hf hr
    unfold finishDownload
    rw [if_neg (fun hne => hne hf), if_neg hr]

/-- Witness: the outcome decision evaluated at a concrete final state
with one failed ticker. -/
theorem finish_decision_witness :
    FinishRule c4state ∧
    finishDownload c4state = .error (.downloadFailure ["A"] 1) :=
  ⟨finish_decision c4state, rfl⟩

/-- **C5 (counterexample)**: a single-ticker shaped response paired with
a two-ticker batch classifies only `batch[0]`; the second requested
ticker `"B"` lands in none of the three sets, so the classification is
not total for every response/batch pair. -/
theorem normalizer_totality_counterexample :
    ¬ ClassifiesTotally (.singleFrame [c5row]) ["A", "B"] := by
  intro h
  exact absurd (h "B" (by decide)) (by decide)

/-- **C5 (amended)**: the claimed three-way classification holds for
every response that is empty-shaped or MultiIndex-shaped, and for
single-ticker shaped responses paired with a one-ticker batch — the
single-ticker shape classifies only `batch[0]`, so batches of two or
more requested tickers paired with that shape fall outside it. -/
theorem normalizer_classification (raw : Raw) (batch : List String)
    (_hne : batch ≠ [])
    (hshape : ∀ rows0, raw = Raw.singleFrame rows0 → batch.length = 1) :
    NormalizerClassification raw batch := by
  refine ⟨?_, ?_, ?_, ?_⟩
  · intro t ht
    rcases extract_covers raw batch hshape t ht with h | h | h
    · exact Or.inl ⟨h, extract_success_noData_disjoint raw batch t h,
        extract_success_unresolved_disjoint raw batch t h⟩
    · exact Or.inr (Or.inl ⟨fun hs => extract_success_noData_disjoint raw batch t hs h, h,
        extract_noData_unresolved_disjoint raw batch t h⟩)
    · refine Or.inr (Or.inr ⟨?_, ?_, h⟩)
      · intro hs; exact extract_success_unresolved_disjoint raw batch t hs h
      · intro hn; exact extract_noData_unresolved_disjoint raw batch t hn h
  · intro hraw; subst hraw
    exact ⟨rfl, rfl, rfl, rfl⟩
  · intro cols hraw t ht
    subst hraw
    refine ⟨?_, ?_, ?_⟩
    · rw [show extractYfinanceBatch (Raw.multiFrame cols) batch = classifyMulti cols batch
        from rfl, classifyMulti_unresolved_eq]
      simp [List.mem_filter, ht]
    · rw [show extractYfinanceBatch (Raw.multiFrame cols) batch = classifyMulti cols batch
        from rfl, classifyMulti_noData_eq]
      simp [List.mem_filter, ht]
    · rw [show extractYfinanceBatch (Raw.multiFrame cols) batch = classifyMulti cols batch
        from rfl, classifyMulti_success_eq]
      simp [List.mem_filter, ht]
  · intro cols hraw
    subst hraw
    exact classifyMulti_rows_eq cols batch

/-- Witness: the amended classification at a concrete MultiIndex
response and two-ticker batch. -/
theorem normalizer_classification_witness :
    ((["A", "B"] : List String) ≠ []) ∧
    (∀ rows0, Raw.multiFrame [("A", [c5row])] = Raw.singleFrame rows0 →
      (["A", "B"] : List String).length = 1) ∧
    NormalizerClassification (Raw.multiFrame [("A", [c5row])]) ["A", "B"] :=
  ⟨by decide, fun rows0 h => Raw.noConfusion h,
    normalizer_classification (Raw.multiFrame [("A", [c5row])]) ["A", "B"]
      (by decide) (fun rows0 h => Raw.noConfusion h)⟩

/-- **C9 (counterexample)**: with `tickers` omitted and
`batch_size = 0`, the source fetches the NYSE universe over the network
first and only then raises the configuration error, so the error is not
raised before all network activity. -/
theorem validation_network_counterexample :
    validateParams none ["A"] ⟨0, 4, 3/2, 2⟩ =
      (true, some (.configurationError "batch_size must be >= 1")) ∧
    ¬ FailsBeforeAnyNetwork none ["A"] ⟨0, 4, 3/2, 2⟩ := by
  refine ⟨by decide, fun h => ?_⟩
  rcases h (Or.inl (by decide)) with ⟨hfst, _⟩
  exact absurd hfst (by decide)

/-- **C9 (amended)**: with a non-empty (possibly fetched) ticker list,
any violated bound raises a `ConfigurationError` before the download
loop starts — before any provider price call — but the ticker-universe
fetch, when `tickers` is omitted, runs before validation, so exactly
that one network request does happen. -/
theorem validation_fails_fast (tickersOpt : Option (List String)) (univ : List String)
    (p : RawParams) (h1 : tickersOpt.getD univ ≠ []) (hviol : paramsViolated p) :
    (validateParams tickersOpt univ p).1 = tickersOpt.isNone ∧
    ∃ msg, (validateParams tickersOpt univ p).2 = some (.configurationError msg) := by
  constructor
  · simp only [validateParams]
    repeat' split
    all_goals rfl
  · simp only [validateParams]
    rw [if_neg h1]
    by_cases hb : p.batchSize < 1
    · rw [if_pos hb]; exact ⟨_, rfl⟩
    · rw [if_neg hb]
      by_cases hm : p.maxRetriesPerTicker < 0
      · rw [if_pos hm]; exact ⟨_, rfl⟩
      · rw [if_neg hm]
        by_cases hr : p.retryBackoffSeconds < 0
        · rw [if_pos hr]; exact ⟨_, rfl⟩
        · rw [if_neg hr]
          by_cases hn : p.noDataConfirmations < 1
          · rw [if_pos hn]; exact ⟨_, rfl⟩
          · rcases hviol with h | h | h | h <;> contradiction

/-- Witness: provided tickers and `batch_size = 0`: no universe fetch,
and the configuration error is raised. -/
theorem validation_fails_fast_witness :
    ((some ["A"] : Option (List String)).getD ["N"] ≠ []) ∧
    paramsViolated ⟨0, 4, 3/2, 2⟩ ∧
    ((validateParams (some ["A"]) ["N"] ⟨0, 4, 3/2, 2⟩).1 =
        (some ["A"] : Option (List String)).isNone ∧
      ∃ msg, (validateParams (some ["A"]) ["N"] ⟨0, 4, 3/2, 2⟩).2 =
        some (.configurationError msg)) :=
  ⟨by decide, Or.inl (by decide),
    validation_fails_fast (some ["A"]) ["N"] ⟨0, 4, 3/2, 2⟩ (by decide) (Or.inl (by decide))⟩

theorem sum_map_le_sum_map {l : List String} (f g : String → Nat)
    (h : ∀ t ∈ l, f t ≤ g t) : (l.map f).sum ≤ (l.map g).sum := by
  induction l with
  | nil => simp
  | cons a as ih =>
    simp only [List.map_cons, List.sum_cons]
    exact Nat.add_le_add (h a (List.mem_cons_self _ _))
      (ih fun t ht => h t (List.mem_cons_of_mem _ ht))

theorem sum_map_lt_sum_map {l : List String} (f g : String → Nat)
    (h : ∀ t ∈ l, f t < g t) (hne : l ≠ []) : (l.map f).sum < (l.map g).sum := by
  cases l with
  | nil => exact absurd rfl hne
  | cons a as =>
    simp only [List.map_cons, List.sum_cons]
    exact Nat.add_lt_add_of_lt_of_le (h a (List.mem_cons_self _ _))
      (sum_map_le_sum_map f g fun t ht => Nat.le_of_lt (h t (List.mem_cons_of_mem _ ht)))

theorem sum_map_congr_mem {l : List String} (f g : String → Nat)
    (h : ∀ t ∈ l, f t = g t) : (l.map f).sum = (l.map g).sum := by
  rw [List.map_congr_left h]

/-- Two disjoint duplicate-free member-wise subsets of a duplicate-free
list have summed images bounded by the list's sum. -/
theorem sum_two_disjoint_le (l1 l2 m : List String) (f : String → Nat)
    (h1 : l1.Nodup) (h2 : l2.Nodup) (hm : m.Nodup)
    (hd : ∀ t ∈ l1, t ∉ l2)
    (hs1 : ∀ t ∈ l1, t ∈ m) (hs2 : ∀ t ∈ l2, t ∈ m) :
    (l1.map f).sum + (l2.map f).sum ≤ (m.map f).sum := by
  rw [← List.sum_toFinset f h1, ← List.sum_toFinset f h2, ← List.sum_toFinset f hm]
  have hdisj : Disjoint l1.toFinset l2.toFinset := by
    rw [Finset.disjoint_left]
    intro a ha hb
    exact hd a (List.mem_toFinset.mp ha) (List.mem_toFinset.mp hb)
  rw [← Finset.sum_union hdisj]
  apply Finset.sum_le_sum_of_subset
  intro a ha
  rcases Finset.mem_union.mp ha with h | h
  · exact List.mem_toFinset.mpr (hs1 a (List.mem_toFinset.mp h))
  · exact List.mem_toFinset.mpr (hs2 a (List.mem_toFinset.mp h))

theorem take_ne_nil_of_ne_nil {l : List String} {n : Nat} (hn : 1 ≤ n) (hl : l ≠ []) :
    l.take n ≠ [] := by
  cases l with
  | nil => exact absurd rfl hl
  | cons a as =>
    cases n with
    | zero => omega
    | succ k => simp

theorem phi_pos (cfg : Config) (attempt noData : String → Nat) (t : String)
    (hC : 1 ≤ cfg.noDataConfirmations) (ha : attempt t ≤ cfg.maxRetriesPerTicker) :
    1 ≤ phi cfg attempt noData t := by
  rw [phi]
  have hp : 0 < (cfg.maxRetriesPerTicker + 1 - attempt t) * cfg.noDataConfirmations :=
    Nat.mul_pos (by omega) (by omega)
  omega

/-- Bumping the attempt counter (within budget) and clearing the
no-data counter strictly decreases the potential. -/
theorem phi_lt_attempt_bump (cfg : Config) (attempt2 noData2 attempt noData : String → Nat)
    (t : String) (h1 : attempt2 t = attempt t + 1) (h2 : noData2 t = 0)
    (hC : 1 ≤ cfg.noDataConfirmations)
    (ha : attempt t ≤ cfg.maxRetriesPerTicker) (hn : noData t < cfg.noDataConfirmations) :
    phi cfg attempt2 noData2 t < phi cfg attempt noData t := by
  rw [phi, phi, h1, h2]
  have hsub : cfg.maxRetriesPerTicker + 1 - attempt t =
      (cfg.maxRetriesPerTicker + 1 - (attempt t + 1)) + 1 := by omega
  rw [hsub, Nat.succ_mul]
  omega

/-- Bumping the no-data counter strictly decreases the potential. -/
theorem phi_lt_noData_bump (cfg : Config) (attempt2 noData2 attempt noData : String → Nat)
    (t : String) (h1 : attempt2 t = attempt t) (h2 : noData2 t = noData t + 1)
    (hn : noData t < cfg.noDataConfirmations) :
    phi cfg attempt2 noData2 t < phi cfg attempt noData t := by
  rw [phi, phi, h1, h2]
  omega

theorem phi_congr (cfg : Config) (attempt2 noData2 attempt noData : String → Nat)
    (t : String) (h1 : attempt2 t = attempt t) (h2 : noData2 t = noData t) :
    phi cfg attempt2 noData2 t = phi cfg attempt noData t := by
  rw [phi, phi, h1, h2]

/-- A transport-failure round preserves the counter bounds and strictly
decreases the loop measure. -/
theorem roundTransport_inv_measure (cfg : Config) (s : LoaderState)
    (hbs : 1 ≤ cfg.batchSize) (hC : 1 ≤ cfg.noDataConfirmations)
    (hinv : CounterInv cfg s) (hne : s.pending ≠ []) :
    CounterInv cfg (roundStep cfg .raises s).state ∧
    measureOf cfg (roundStep cfg .raises s).state < measureOf cfg s := by
  obtain ⟨hPnodup, hbounds⟩ := hinv
  have hsplit : s.pending.take cfg.batchSize ++ s.pending.drop cfg.batchSize = s.pending :=
    List.take_append_drop _ _
  have hBnodup : (s.pending.take cfg.batchSize).Nodup :=
    hPnodup.sublist (List.take_sublist _ _)
  have hBR : ∀ t ∈ s.pending.take cfg.batchSize, t ∉ s.pending.drop cfg.batchSize :=
    take_drop_not_mem s.pending cfg.batchSize hPnodup
  have hpend : (roundStep cfg .raises s).state.pending =
      s.pending.drop cfg.batchSize ++
        (s.pending.take cfg.batchSize).filter
          (fun t => decide (s.attemptCounts t + 1 ≤ cfg.maxRetriesPerTicker)) := by
    rw [roundStep_raises]
    show s.pending.drop cfg.batchSize ++ failReenq cfg s (s.pending.take cfg.batchSize) = _
    rw [failReenq_eq]
  have hatt : (roundStep cfg .raises s).state.attemptCounts =
      failAttempt s (s.pending.take cfg.batchSize) := rfl
  have hnod : (roundStep cfg .raises s).state.noDataCounts =
      failNoData s (s.pending.take cfg.batchSize) := rfl
  have hattB : ∀ t ∈ s.pending.take cfg.batchSize,
      failAttempt s (s.pending.take cfg.batchSize) t = s.attemptCounts t + 1 :=
    fun t ht => by simp [failAttempt, ht]
  have hattN : ∀ t, t ∉ s.pending.take cfg.batchSize →
      failAttempt s (s.pending.take cfg.batchSize) t = s.attemptCounts t :=
    fun t ht => by simp [failAttempt, ht]
  have hnodB : ∀ t ∈ s.pending.take cfg.batchSize,
      failNoData s (s.pending.take cfg.batchSize) t = 0 :=
    fun t ht => by simp [failNoData, ht]
  have hnodN : ∀ t, t ∉ s.pending.take cfg.batchSize →
      failNoData s (s.pending.take cfg.batchSize) t = s.noDataCounts t :=
    fun t ht => by simp [failNoData, ht]
  have hqB : ∀ t ∈ (s.pending.take cfg.batchSize).filter
      (fun t => decide (s.attemptCounts t + 1 ≤ cfg.maxRetriesPerTicker)),
      t ∈ s.pending.take cfg.batchSize :=
    fun t ht => (List.filter_sublist _).subset ht
  have hqBound : ∀ t ∈ (s.pending.take cfg.batchSize).filter
      (fun t => decide (s.attemptCounts t + 1 ≤ cfg.maxRetriesPerTicker)),
      s.attemptCounts t + 1 ≤ cfg.maxRetriesPerTicker := by
    intro t ht
    have := (List.mem_filter.mp ht).2
    simpa using this
  constructor
  · constructor
    · rw [hpend]
      refine List.nodup_append.mpr ⟨hPnodup.sublist (List.drop_sublist _ _),
        hBnodup.filter _, ?_⟩
      intro a haR haQ
      exact hBR a (hqB a haQ) haR
    · intro t ht
      rw [hpend] at ht
      rw [hatt, hnod]
      rcases List.mem_append.mp ht with hR | hQ
      · have hnB : t ∉ s.pending.take cfg.batchSize := fun hB => hBR t hB hR
        rw [hattN t hnB, hnodN t hnB]
        exact hbounds t (List.drop_subset _ _ hR)
      · refine ⟨?_, ?_⟩
        · rw [hattB t (hqB t hQ)]
          exact hqBound t hQ
        · rw [hnodB t (hqB t hQ)]
          omega
  · have hm0 : measureOf cfg s =
        ((s.pending.take cfg.batchSize).map (phi cfg s.attemptCounts s.noDataCounts)).sum +
          ((s.pending.drop cfg.batchSize).map (phi cfg s.attemptCounts s.noDataCounts)).sum := by
      rw [measureOf]
      conv_lhs => rw [← hsplit]
      rw [List.map_append, List.sum_append]
    have hm1 : measureOf cfg (roundStep cfg .raises s).state =
        ((s.pending.drop cfg.batchSize).map
          (phi cfg (failAttempt s (s.pending.take cfg.batchSize))
            (failNoData s (s.pending.take cfg.batchSize)))).sum +
        (((s.pending.take cfg.batchSize).filter
            (fun t => decide (s.attemptCounts t + 1 ≤ cfg.maxRetriesPerTicker))).map
          (phi cfg (failAttempt s (s.pending.take cfg.batchSize))
            (failNoData s (s.pending.take cfg.batchSize)))).sum := by
      rw [measureOf, hpend, hatt, hnod, List.map_append, List.sum_append]
    have hRsame : ((s.pending.drop cfg.batchSize).map
        (phi cfg (failAttempt s (s.pending.take cfg.batchSize))
          (failNoData s (s.pending.take cfg.batchSize)))).sum =
        ((s.pending.drop cfg.batchSize).map (phi cfg s.attemptCounts s.noDataCounts)).sum := by
      apply sum_map_congr_mem
      intro t ht
      have hnB : t ∉ s.pending.take cfg.batchSize := fun hB => hBR t hB ht
      exact phi_congr cfg _ _ _ _ t (hattN t hnB) (hnodN t hnB)
    have hBpos : 1 ≤ ((s.pending.take cfg.batchSize).map
        (phi cfg s.attemptCounts s.noDataCounts)).sum := by
      have hBne : s.pending.take cfg.batchSize ≠ [] := take_ne_nil_of_ne_nil hbs hne
      cases hb : s.pending.take cfg.batchSize with
      | nil => exact absurd hb hBne
      | cons b0 bs =>
        have hb0 : b0 ∈ s.pending := List.take_subset _ _ (hb ▸ List.mem_cons_self b0 bs)
        have := phi_pos cfg s.attemptCounts s.noDataCounts b0 hC (hbounds b0 hb0).1
        simp only [List.map_cons, List.sum_cons]
        omega
    rw [hm0, hm1, hRsame]
    by_cases hq : (s.pending.take cfg.batchSize).filter
        (fun t => decide (s.attemptCounts t + 1 ≤ cfg.maxRetriesPerTicker)) = []
    · rw [hq]
      simp only [List.map_nil, List.sum_nil, Nat.add_zero]
      omega
    · have hlt : (((s.pending.take cfg.batchSize).filter
          (fun t => decide (s.attemptCounts t + 1 ≤ cfg.maxRetriesPerTicker))).map
            (phi cfg (failAttempt s (s.pending.take cfg.batchSize))
              (failNoData s (s.pending.take cfg.batchSize)))).sum <
          (((s.pending.take cfg.batchSize).filter
            (fun t => decide (s.attemptCounts t + 1 ≤ cfg.maxRetriesPerTicker))).map
              (phi cfg s.attemptCounts s.noDataCounts)).sum := by
        apply sum_map_lt_sum_map _ _ _ hq
        intro t ht
        have htB := hqB t ht
        have htP := List.take_subset _ _ htB
        exact phi_lt_attempt_bump cfg _ _ _ _ t (hattB t htB) (hnodB t htB) hC
          (hbounds t htP).1 (hbounds t htP).2
      have hle : (((s.pending.take cfg.batchSize).filter
          (fun t => decide (s.attemptCounts t + 1 ≤ cfg.maxRetriesPerTicker))).map
            (phi cfg s.attemptCounts s.noDataCounts)).sum ≤
          ((s.pending.take cfg.batchSize).map (phi cfg s.attemptCounts s.noDataCounts)).sum :=
        ((List.filter_sublist _).map _).sum_le_sum (by simp)
      omega

/-- A success round preserves the counter bounds and strictly decreases
the loop measure, for every response shape. -/
theorem roundSuccess_inv_measure (cfg : Config) (s : LoaderState) (raw : Raw)
    (hbs : 1 ≤ cfg.batchSize) (hC : 1 ≤ cfg.noDataConfirmations)
    (hinv : CounterInv cfg s) (hne : s.pending ≠ []) :
    CounterInv cfg (roundStep cfg (.ok raw) s).state ∧
    measureOf cfg (roundStep cfg (.ok raw) s).state < measureOf cfg s := by
  obtain ⟨hPnodup, hbounds⟩ := hinv
  set B := s.pending.take cfg.batchSize with hBdef
  set R := s.pending.drop cfg.batchSize with hRdef
  set e := extractYfinanceBatch raw B with hedef
  set nd := e.noData.filter
    (fun t => decide (s.noDataCounts t + 1 < cfg.noDataConfirmations)) with hnddef
  set ur := e.unresolved.filter
    (fun t => decide (s.attemptCounts t + 1 ≤ cfg.maxRetriesPerTicker)) with hurdef
  have hsplit : B ++ R = s.pending := List.take_append_drop _ _
  have hBnodup : B.Nodup := hPnodup.sublist (List.take_sublist _ _)
  have hRnodup : R.Nodup := hPnodup.sublist (List.drop_sublist _ _)
  have hBR : ∀ t ∈ B, t ∉ R := take_drop_not_mem s.pending cfg.batchSize hPnodup
  have hBP : ∀ t ∈ B, t ∈ s.pending := fun t ht => List.take_subset _ _ ht
  have hpend : (roundStep cfg (.ok raw) s).state.pending = R ++ nd ++ ur := by
    rw [roundStep_ok, roundSuccess_pending, noDataRetryOf_eq, unresReenqOf_eq]
  have hatt : (roundStep cfg (.ok raw) s).state.attemptCounts = attemptAfter s e := rfl
  have hnodc : (roundStep cfg (.ok raw) s).state.noDataCounts = noDataAfter s e := rfl
  have hndN : ∀ t ∈ nd, t ∈ e.noData := fun t ht => (List.filter_sublist _).subset ht
  have hurU : ∀ t ∈ ur, t ∈ e.unresolved := fun t ht => (List.filter_sublist _).subset ht
  have hndB : ∀ t ∈ nd, t ∈ B := fun t ht => extract_noData_subset raw B t (hndN t ht)
  have hurB : ∀ t ∈ ur, t ∈ B := fun t ht => extract_unresolved_subset raw B t (hurU t ht)
  have hndBound : ∀ t ∈ nd, s.noDataCounts t + 1 < cfg.noDataConfirmations := by
    intro t ht
    have := (List.mem_filter.mp ht).2
    simpa using this
  have hurBound : ∀ t ∈ ur, s.attemptCounts t + 1 ≤ cfg.maxRetriesPerTicker := by
    intro t ht
    have := (List.mem_filter.mp ht).2
    simpa using this
  have hndNodup : nd.Nodup := (extract_noData_nodup raw B hBnodup).filter _
  have hurNodup : ur.Nodup := (extract_unresolved_nodup raw B hBnodup).filter _
  have hndur : ∀ t ∈ nd, t ∉ ur := fun t ht hu =>
    extract_noData_unresolved_disjoint raw B t (hndN t ht) (hurU t hu)
  have hattOut : ∀ t, t ∉ B → attemptAfter s e t = s.attemptCounts t := by
    intro t htB
    have h1 : t ∉ e.unresolved := fun hu => htB (extract_unresolved_subset raw B t hu)
    simp [attemptAfter, h1]
  have hnodOut : ∀ t, t ∉ B → noDataAfter s e t = s.noDataCounts t := by
    intro t htB
    have h1 : t ∉ e.unresolved := fun hu => htB (extract_unresolved_subset raw B t hu)
    have h2 : t ∉ e.success := fun hs => htB (extract_success_subset raw B t hs)
    have h3 : t ∉ e.noData := fun hn => htB (extract_noData_subset raw B t hn)
    simp [noDataAfter, noDataMid, h1, h2, h3]
  have hattND : ∀ t ∈ nd, attemptAfter s e t = s.attemptCounts t := by
    intro t ht
    have h1 : t ∉ e.unresolved := extract_noData_unresolved_disjoint raw B t (hndN t ht)
    simp [attemptAfter, h1]
  have hnodND : ∀ t ∈ nd, noDataAfter s e t = s.noDataCounts t + 1 := by
    intro t ht
    have h1 : t ∉ e.unresolved := extract_noData_unresolved_disjoint raw B t (hndN t ht)
    have h2 : t ∉ e.success := fun hs => extract_success_noData_disjoint raw B t hs (hndN t ht)
    simp [noDataAfter, noDataMid, h1, h2, hndN t ht]
  have hattUR : ∀ t ∈ ur, attemptAfter s e t = s.attemptCounts t + 1 := by
    intro t ht
    simp [attemptAfter, hurU t ht]
  have hnodUR : ∀ t ∈ ur, noDataAfter s e t = 0 := by
    intro t ht
    simp [noDataAfter, hurU t ht]
  constructor
  · constructor
    · rw [hpend]
      refine List.nodup_append.mpr
        ⟨List.nodup_append.mpr ⟨hRnodup, hndNodup, ?_⟩, hurNodup, ?_⟩
      · intro a haR haN
        exact hBR a (hndB a haN) haR
      · intro a haRN haU
        rcases List.mem_append.mp haRN with haR | haN
        · exact hBR a (hurB a haU) haR
        · exact hndur a haN haU
    · intro t ht
      rw [hpend] at ht
      rw [hatt, hnodc]
      rcases List.mem_append.mp ht with hRN | hU
      · rcases List.mem_append.mp hRN with hRm | hNm
        · have hnB : t ∉ B := fun hBm => hBR t hBm hRm
          rw [hattOut t hnB, hnodOut t hnB]
          exact hbounds t (List.drop_subset _ _ hRm)
        · refine ⟨?_, ?_⟩
          · rw [hattND t hNm]
            exact (hbounds t (hBP t (hndB t hNm))).1
          · rw [hnodND t hNm]
            exact hndBound t hNm
      · refine ⟨?_, ?_⟩
        · rw [hattUR t hU]
          exact hurBound t hU
        · rw [hnodUR t hU]
          omega
  · have hm0 : measureOf cfg s =
        (B.map (phi cfg s.attemptCounts s.noDataCounts)).sum +
          (R.map (phi cfg s.attemptCounts s.noDataCounts)).sum := by
      rw [measureOf]
      conv_lhs => rw [← hsplit]
      rw [List.map_append, List.sum_append]
    have hm1 : measureOf cfg (roundStep cfg (.ok raw) s).state =
        (R.map (phi cfg (attemptAfter s e) (noDataAfter s e))).sum +
          (nd.map (phi cfg (attemptAfter s e) (noDataAfter s e))).sum +
          (ur.map (phi cfg (attemptAfter s e) (noDataAfter s e))).sum := by
      rw [measureOf, hpend, hatt, hnodc, List.map_append, List.sum_append,
        List.map_append, List.sum_append]
    have hRsame : (R.map (phi cfg (attemptAfter s e) (noDataAfter s e))).sum =
        (R.map (phi cfg s.attemptCounts s.noDataCounts)).sum := by
      apply sum_map_congr_mem
      intro t ht
      have hnB : t ∉ B := fun hBm => hBR t hBm ht
      exact phi_congr cfg _ _ _ _ t (hattOut t hnB) (hnodOut t hnB)
    have hndlt : ∀ t ∈ nd, phi cfg (attemptAfter s e) (noDataAfter s e) t <
        phi cfg s.attemptCounts s.noDataCounts t := by
      intro t ht
      exact phi_lt_noData_bump cfg _ _ _ _ t (hattND t ht) (hnodND t ht)
        (hbounds t (hBP t (hndB t ht))).2
    have hurlt : ∀ t ∈ ur, phi cfg (attemptAfter s e) (noDataAfter s e) t <
        phi cfg s.attemptCounts s.noDataCounts t := by
      intro t ht
      exact phi_lt_attempt_bump cfg _ _ _ _ t (hattUR t ht) (hnodUR t ht) hC
        (hbounds t (hBP t (hurB t ht))).1 (hbounds t (hBP t (hurB t ht))).2
    have hcomb : (nd.map (phi cfg s.attemptCounts s.noDataCounts)).sum +
        (ur.map (phi cfg s.attemptCounts s.noDataCounts)).sum ≤
        (B.map (phi cfg s.attemptCounts s.noDataCounts)).sum :=
      sum_two_disjoint_le nd ur B _ hndNodup hurNodup hBnodup hndur hndB hurB
    have hBpos : 1 ≤ (B.map (phi cfg s.attemptCounts s.noDataCounts)).sum := by
      have hBne : B ≠ [] := take_ne_nil_of_ne_nil hbs hne
      cases hb : B with
      | nil => exact absurd hb hBne
      | cons b0 bs =>
        have hb0 : b0 ∈ s.pending := hBP b0 (hb ▸ List.mem_cons_self b0 bs)
        have := phi_pos cfg s.attemptCounts s.noDataCounts b0 hC (hbounds b0 hb0).1
        simp only [List.map_cons, List.sum_cons]
        omega
    rw [hm1, hRsame, hm0]
    by_cases hndq : nd = []
    · by_cases hurq : ur = []
      · rw [hndq, hurq]
        simp only [List.map_nil, List.sum_nil, Nat.add_zero]
        omega
      · have h2lt := sum_map_lt_sum_map _ _ hurlt hurq
        have h1le := sum_map_le_sum_map
          (phi cfg (attemptAfter s e) (noDataAfter s e))
          (phi cfg s.attemptCounts s.noDataCounts)
          (fun t ht => Nat.le_of_lt (hndlt t ht))
        omega
    · have h1lt := sum_map_lt_sum_map _ _ hndlt hndq
      have h2le := sum_map_le_sum_map
        (phi cfg (attemptAfter s e) (noDataAfter s e))
        (phi cfg s.attemptCounts s.noDataCounts)
        (fun t ht => Nat.le_of_lt (hurlt t ht))
      omega

/-- Any round preserves the counter bounds and strictly decreases the
loop measure. -/
theorem roundStep_inv_measure (cfg : Config) (o : Outcome) (s : LoaderState)
    (hbs : 1 ≤ cfg.batchSize) (hC : 1 ≤ cfg.noDataConfirmations)
    (hinv : CounterInv cfg s) (hne : s.pending ≠ []) :
    CounterInv cfg (roundStep cfg o s).state ∧
    measureOf cfg (roundStep cfg o s).state < measureOf cfg s := by
  cases o with
  | raises => exact roundTransport_inv_measure cfg s hbs hC hinv hne
  | ok raw => exact roundSuccess_inv_measure cfg s raw hbs hC hinv hne

theorem runLoop_nil (cfg : Config) (provider : Nat → List String → Outcome)
    (fuel idx : Nat) (s : LoaderState) (trace : List RoundOut) (hnil : s.pending = []) :
    runLoop cfg provider fuel idx s trace = some (s, trace.reverse) := by
  cases fuel with
  | zero => rw [runLoop, if_pos hnil]
  | succ n => rw [runLoop, if_pos hnil]

theorem runLoop_cons (cfg : Config) (provider : Nat → List String → Outcome)
    (fuel idx : Nat) (s : LoaderState) (trace : List RoundOut) (hne : s.pending ≠ []) :
    runLoop cfg provider (fuel + 1) idx s trace =
      runLoop cfg provider fuel (idx + 1)
        (roundStep cfg (provider idx (s.pending.take cfg.batchSize)) s).state
        (roundStep cfg (provider idx (s.pending.take cfg.batchSize)) s :: trace) := by
  rw [runLoop, if_neg hne]

/-- With fuel at least the measure, the loop reaches an empty queue. -/
theorem runLoop_total (cfg : Config) (provider : Nat → List String → Outcome)
    (hbs : 1 ≤ cfg.batchSize) (hC : 1 ≤ cfg.noDataConfirmations) :
    ∀ fuel idx (s : LoaderState) (trace : List RoundOut),
      CounterInv cfg s → measureOf cfg s ≤ fuel →
      (runLoop cfg provider fuel idx s trace).isSome := by
  intro fuel
  induction fuel with
  | zero =>
    intro idx s trace hinv hm
    cases hp : s.pending with
    | nil => rw [runLoop_nil cfg provider 0 idx s trace hp]; rfl
    | cons a as =>
      exfalso
      have ha : a ∈ s.pending := by rw [hp]; exact List.mem_cons_self a as
      have h1 : 1 ≤ measureOf cfg s := by
        rw [measureOf, hp]
        simp only [List.map_cons, List.sum_cons]
        have := phi_pos cfg s.attemptCounts s.noDataCounts a hC (hinv.2 a ha).1
        omega
      omega
  | succ n ih =>
    intro idx s trace hinv hm
    by_cases hp : s.pending = []
    · rw [runLoop_nil cfg provider (n + 1) idx s trace hp]; rfl
    · rw [runLoop_cons cfg provider n idx s trace hp]
      have hstep := roundStep_inv_measure cfg
        (provider idx (s.pending.take cfg.batchSize)) s hbs hC hinv hp
      exact ih (idx + 1) _ _ hstep.1 (by omega)

/-- **C10**: for every input ticker list and every sequence of provider
outcomes, the download loop terminates — giving it fuel equal to the
initial measure (each re-enqueued ticker strictly decreases the
lexicographic attempt/no-data potential, which is bounded and never
replenished), the loop empties its queue. -/
theorem download_loop_terminates (cfg : Config) (provider : Nat → List String → Outcome)
    (tickers : List String)
    (hbs : 1 ≤ cfg.batchSize) (hC : 1 ≤ cfg.noDataConfirmations) :
    ∃ res, runLoop cfg provider (measureOf cfg (initState tickers)) 1
      (initState tickers) [] = some res := by
  have hinv : CounterInv cfg (initState tickers) := by
    refine ⟨dedupFirst_nodup tickers, fun t ht => ⟨Nat.zero_le _, ?_⟩⟩
    show 0 < cfg.noDataConfirmations
    omega
  have h := runLoop_total cfg provider hbs hC (measureOf cfg (initState tickers)) 1
    (initState tickers) [] hinv (Nat.le_refl _)
  exact Option.isSome_iff_exists.mp h

/-- Witness: the loop terminates on a concrete ticker list and provider
behaviour. -/
theorem download_loop_terminates_witness :
    1 ≤ cfgW10.batchSize ∧ 1 ≤ cfgW10.noDataConfirmations ∧
    ∃ res, runLoop cfgW10 provW10 (measureOf cfgW10 (initState ["A"])) 1
      (initState ["A"]) [] = some res :=
  ⟨by decide, by decide,
    download_loop_terminates cfgW10 provW10 ["A"] (by decide) (by decide)⟩

theorem mem_disposedOf (s : LoaderState) (t : String) :
    t ∈ disposedOf s ↔
      t ∈ s.succeededTickers ∨ t ∈ s.confirmedNoData ∨ t ∈ s.failedTickers := by
  simp [disposedOf, List.mem_append, or_assoc]

/-- A transport-failure round preserves the disposition partition. -/
theorem roundTransport_partition (cfg : Config) (s : LoaderState) (u : List String)
    (hinv : PartitionInv u s) :
    PartitionInv u (roundStep cfg .raises s).state := by
  obtain ⟨hPnodup, hDnodup, hdisj, hcover⟩ := hinv
  set B := s.pending.take cfg.batchSize with hBdef
  set R := s.pending.drop cfg.batchSize with hRdef
  set rq := B.filter (fun t => decide (s.attemptCounts t + 1 ≤ cfg.maxRetriesPerTicker))
    with hrqdef
  set nf := B.filter (fun t => decide (cfg.maxRetriesPerTicker < s.attemptCounts t + 1))
    with hnfdef
  have hsplit : B ++ R = s.pending := List.take_append_drop _ _
  have hBnodup : B.Nodup := hPnodup.sublist (List.take_sublist _ _)
  have hBR : ∀ t ∈ B, t ∉ R := take_drop_not_mem s.pending cfg.batchSize hPnodup
  have hBP : ∀ t ∈ B, t ∈ s.pending := fun t ht => List.take_subset _ _ ht
  have hRP : ∀ t ∈ R, t ∈ s.pending := fun t ht => List.drop_subset _ _ ht
  have hrqB : ∀ t ∈ rq, t ∈ B := fun t ht => (List.filter_sublist _).subset ht
  have hnfB : ∀ t ∈ nf, t ∈ B := fun t ht => (List.filter_sublist _).subset ht
  have hpend : (roundStep cfg .raises s).state.pending = R ++ rq := by
    rw [roundStep_raises]
    show R ++ failReenq cfg s B = _
    rw [failReenq_eq]
  have hdisp : disposedOf (roundStep cfg .raises s).state = disposedOf s ++ nf := by
    show s.succeededTickers ++ s.confirmedNoData ++ (s.failedTickers ++ failNewFailed cfg s B)
      = (s.succeededTickers ++ s.confirmedNoData ++ s.failedTickers) ++ nf
    rw [failNewFailed_eq]
    simp only [List.append_assoc]
  refine ⟨?_, ?_, ?_, ?_⟩
  · rw [hpend]
    refine List.nodup_append.mpr ⟨hPnodup.sublist (List.drop_sublist _ _),
      hBnodup.filter _, ?_⟩
    intro a haR haQ
    exact hBR a (hrqB a haQ) haR
  · rw [hdisp]
    refine List.nodup_append.mpr ⟨hDnodup, hBnodup.filter _, ?_⟩
    intro a haD haN
    exact hdisj a (hBP a (hnfB a haN)) haD
  · intro t ht
    rw [hpend] at ht
    rw [hdisp]
    intro hd
    rcases List.mem_append.mp hd with hdOld | hdNf
    · rcases List.mem_append.mp ht with hR | hQ
      · exact hdisj t (hRP t hR) hdOld
      · exact hdisj t (hBP t (hrqB t hQ)) hdOld
    · rcases List.mem_append.mp ht with hR | hQ
      · exact hBR t (hnfB t hdNf) hR
      · have h1 := (List.mem_filter.mp hQ).2
        have h2 := (List.mem_filter.mp hdNf).2
        simp only [decide_eq_true_eq] at h1 h2
        omega
  · intro t
    rw [hpend, hdisp]
    constructor
    · rintro (hp | hd)
      · rcases List.mem_append.mp hp with hR | hQ
        · exact (hcover t).mp (Or.inl (hRP t hR))
        · exact (hcover t).mp (Or.inl (hBP t (hrqB t hQ)))
      · rcases List.mem_append.mp hd with hdOld | hdNf
        · exact (hcover t).mp (Or.inr hdOld)
        · exact (hcover t).mp (Or.inl (hBP t (hnfB t hdNf)))
    · intro hu
      rcases (hcover t).mpr hu with hp | hd
      · have : t ∈ B ++ R := by rw [hsplit]; exact hp
        rcases List.mem_append.mp this with hB | hR
        · by_cases hbudget : s.attemptCounts t + 1 ≤ cfg.maxRetriesPerTicker
          · exact Or.inl (List.mem_append_right _
              (List.mem_filter.mpr ⟨hB, by simpa using hbudget⟩))
          · exact Or.inr (List.mem_append_right _
              (List.mem_filter.mpr ⟨hB, by simp; omega⟩))
        · exact Or.inl (List.mem_append_left _ hR)
      · exact Or.inr (List.mem_append_left _ hd)

/-- A success round with a legally shaped response preserves the
disposition partition. -/
theorem roundSuccess_partition (cfg : Config) (s : LoaderState) (raw : Raw) (u : List String)
    (hshape : ∀ rows0, raw = Raw.singleFrame rows0 →
      (s.pending.take cfg.batchSize).length = 1)
    (hinv : PartitionInv u s) :
    PartitionInv u (roundStep cfg (.ok raw) s).state := by
  obtain ⟨hPnodup, hDnodup, hdisj, hcover⟩ := hinv
  set B := s.pending.take cfg.batchSize with hBdef
  set R := s.pending.drop cfg.batchSize with hRdef
  set e := extractYfinanceBatch raw B with hedef
  set nd := e.noData.filter
    (fun t => decide (s.noDataCounts t + 1 < cfg.noDataConfirmations)) with hnddef
  set ur := e.unresolved.filter
    (fun t => decide (s.attemptCounts t + 1 ≤ cfg.maxRetriesPerTicker)) with hurdef
  set cf := e.noData.filter
    (fun t => decide (cfg.noDataConfirmations ≤ s.noDataCounts t + 1)) with hcfdef
  set uf := e.unresolved.filter
    (fun t => decide (cfg.maxRetriesPerTicker < s.attemptCounts t + 1)) with hufdef
  have hsplit : B ++ R = s.pending := List.take_append_drop _ _
  have hBnodup : B.Nodup := hPnodup.sublist (List.take_sublist _ _)
  have hBR : ∀ t ∈ B, t ∉ R := take_drop_not_mem s.pending cfg.batchSize hPnodup
  have hBP : ∀ t ∈ B, t ∈ s.pending := fun t ht => List.take_subset _ _ ht
  have hRP : ∀ t ∈ R, t ∈ s.pending := fun t ht => List.drop_subset _ _ ht
  have hndN : ∀ t ∈ nd, t ∈ e.noData := fun t ht => (List.filter_sublist _).subset ht
  have hcfN : ∀ t ∈ cf, t ∈ e.noData := fun t ht => (List.filter_sublist _).subset ht
  have hurU : ∀ t ∈ ur, t ∈ e.unresolved := fun t ht => (List.filter_sublist _).subset ht
  have hufU : ∀ t ∈ uf, t ∈ e.unresolved := fun t ht => (List.filter_sublist _).subset ht
  have hsuB : ∀ t ∈ e.success, t ∈ B := fun t ht => extract_success_subset raw B t ht
  have hnoB : ∀ t ∈ e.noData, t ∈ B := fun t ht => extract_noData_subset raw B t ht
  have hunB : ∀ t ∈ e.unresolved, t ∈ B := fun t ht => extract_unresolved_subset raw B t ht
  have hsuN : e.success.Nodup := extract_success_nodup raw B hBnodup
  have hnoN : e.noData.Nodup := extract_noData_nodup raw B hBnodup
  have hunN : e.unresolved.Nodup := extract_unresolved_nodup raw B hBnodup
  have hSuNo : ∀ t ∈ e.success, t ∉ e.noData := extract_success_noData_disjoint raw B
  have hSuUn : ∀ t ∈ e.success, t ∉ e.unresolved := extract_success_unresolved_disjoint raw B
  have hNoUn : ∀ t ∈ e.noData, t ∉ e.unresolved := extract_noData_unresolved_disjoint raw B
  have hpend : (roundStep cfg (.ok raw) s).state.pending = R ++ nd ++ ur := by
    rw [roundStep_ok, roundSuccess_pending, noDataRetryOf_eq, unresReenqOf_eq]
  have hsucc2 : (roundStep cfg (.ok raw) s).state.succeededTickers =
      s.succeededTickers ++ e.success := by
    rw [roundStep_ok, roundSuccess_succeeded]
  have hconf2 : (roundStep cfg (.ok raw) s).state.confirmedNoData =
      s.confirmedNoData ++ cf := by
    rw [roundStep_ok, roundSuccess_confirmed, noDataConfirmedOf_eq]
  have hfail2 : (roundStep cfg (.ok raw) s).state.failedTickers =
      s.failedTickers ++ uf := by
    rw [roundStep_ok, roundSuccess_failed, unresFailedOf_eq]
  have hmemD2 : ∀ t, t ∈ disposedOf (roundStep cfg (.ok raw) s).state ↔
      ((t ∈ s.succeededTickers ∨ t ∈ e.success) ∨ (t ∈ s.confirmedNoData ∨ t ∈ cf) ∨
        (t ∈ s.failedTickers ∨ t ∈ uf)) := by
    intro t
    rw [mem_disposedOf, hsucc2, hconf2, hfail2, List.mem_append, List.mem_append,
      List.mem_append]
  have hdisjParts : ∀ t ∈ s.pending,
      t ∉ s.succeededTickers ∧ t ∉ s.confirmedNoData ∧ t ∉ s.failedTickers := by
    intro t ht
    have hnd2 := hdisj t ht
    exact ⟨fun h => hnd2 ((mem_disposedOf s t).mpr (Or.inl h)),
      fun h => hnd2 ((mem_disposedOf s t).mpr (Or.inr (Or.inl h))),
      fun h => hnd2 ((mem_disposedOf s t).mpr (Or.inr (Or.inr h)))⟩
  have hnewOld : ∀ t ∈ B,
      t ∉ s.succeededTickers ∧ t ∉ s.confirmedNoData ∧ t ∉ s.failedTickers :=
    fun t ht => hdisjParts t (hBP t ht)
  have hD1 := List.nodup_append.mp hDnodup
  have hD2 := List.nodup_append.mp hD1.1
  have hdisp2 : disposedOf (roundStep cfg (.ok raw) s).state =
      (s.succeededTickers ++ e.success) ++ (s.confirmedNoData ++ cf) ++
        (s.failedTickers ++ uf) := by
    show (roundStep cfg (.ok raw) s).state.succeededTickers ++
        (roundStep cfg (.ok raw) s).state.confirmedNoData ++
        (roundStep cfg (.ok raw) s).state.failedTickers = _
    rw [hsucc2, hconf2, hfail2]
  refine ⟨?_, ?_, ?_, ?_⟩
  · rw [hpend]
    refine List.nodup_append.mpr
      ⟨List.nodup_append.mpr ⟨hPnodup.sublist (List.drop_sublist _ _),
        hnoN.filter _, ?_⟩, hunN.filter _, ?_⟩
    · intro a haR haN
      exact hBR a (hnoB a (hndN a haN)) haR
    · intro a haRN haU
      rcases List.mem_append.mp haRN with haR | haN
      · exact hBR a (hunB a (hurU a haU)) haR
      · exact hNoUn a (hndN a haN) (hurU a haU)
  · rw [hdisp2]
    refine List.nodup_append.mpr
      ⟨List.nodup_append.mpr
        ⟨List.nodup_append.mpr ⟨hD2.1, hsuN,
            fun a ha hb => (hnewOld a (hsuB a hb)).1 ha⟩,
          List.nodup_append.mpr ⟨hD2.2.1, hnoN.filter _,
            fun a ha hb => (hnewOld a (hnoB a (hcfN a hb))).2.1 ha⟩, ?_⟩,
        List.nodup_append.mpr ⟨hD1.2.1, hunN.filter _,
          fun a ha hb => (hnewOld a (hunB a (hufU a hb))).2.2 ha⟩, ?_⟩
    · intro a ha hb
      rcases List.mem_append.mp ha with haS | haSu
      · rcases List.mem_append.mp hb with hbC | hbCf
        · exact hD2.2.2 haS hbC
        · exact (hnewOld a (hnoB a (hcfN a hbCf))).1 haS
      · rcases List.mem_append.mp hb with hbC | hbCf
        · exact (hnewOld a (hsuB a haSu)).2.1 hbC
        · exact hSuNo a haSu (hcfN a hbCf)
    · intro a ha hb
      rcases List.mem_append.mp hb with hbF | hbUf
      · rcases List.mem_append.mp ha with haSC | haCC
        · rcases List.mem_append.mp haSC with haS | haSu
          · exact hD1.2.2 (List.mem_append_left _ haS) hbF
          · exact (hnewOld a (hsuB a haSu)).2.2 hbF
        · rcases List.mem_append.mp haCC with haC | haCf
          · exact hD1.2.2 (List.mem_append_right _ haC) hbF
          · exact (hnewOld a (hnoB a (hcfN a haCf))).2.2 hbF
      · rcases List.mem_append.mp ha with haSC | haCC
        · rcases List.mem_append.mp haSC with haS | haSu
          · exact (hnewOld a (hunB a (hufU a hbUf))).1 haS
          · exact hSuUn a haSu (hufU a hbUf)
        · rcases List.mem_append.mp haCC with haC | haCf
          · exact (hnewOld a (hunB a (hufU a hbUf))).2.1 haC
          · exact hNoUn a (hcfN a haCf) (hufU a hbUf)
  · intro t ht hd
    rw [hpend] at ht
    rw [hmemD2] at hd
    have htP : t ∈ s.pending := by
      rcases List.mem_append.mp ht with hRN | hU
      · rcases List.mem_append.mp hRN with hR | hN
        · exact hRP t hR
        · exact hBP t (hnoB t (hndN t hN))
      · exact hBP t (hunB t (hurU t hU))
    rcases hd with (hOld | hNew) | (hOld | hNew) | (hOld | hNew)
    · exact (hdisjParts t htP).1 hOld
    · rcases List.mem_append.mp ht with hRN | hU
      · rcases List.mem_append.mp hRN with hR | hN
        · exact hBR t (hsuB t hNew) hR
        · exact hSuNo t hNew (hndN t hN)
      · exact hSuUn t hNew (hurU t hU)
    · exact (hdisjParts t htP).2.1 hOld
    · rcases List.mem_append.mp ht with hRN | hU
      · rcases List.mem_append.mp hRN with hR | hN
        · exact hBR t (hnoB t (hcfN t hNew)) hR
        · have h1 := (List.mem_filter.mp hN).2
          have h2 := (List.mem_filter.mp hNew).2
          simp only [decide_eq_true_eq] at h1 h2
          omega
      · exact hNoUn t (hcfN t hNew) (hurU t hU)
    · exact (hdisjParts t htP).2.2 hOld
    · rcases List.mem_append.mp ht with hRN | hU
      · rcases List.mem_append.mp hRN with hR | hN
        · exact hBR t (hunB t (hufU t hNew)) hR
        · exact hNoUn t (hndN t hN) (hufU t hNew)
      · have h1 := (List.mem_filter.mp hU).2
        have h2 := (List.mem_filter.mp hNew).2
        simp only [decide_eq_true_eq] at h1 h2
        omega
  · intro t
    constructor
    · rintro (hp | hd)
      · exact (hcover t).mp (Or.inl (roundStep_pending_subset cfg (.ok raw) s t hp))
      · rw [hmemD2] at hd
        rcases hd with (hOld | hNew) | (hOld | hNew) | (hOld | hNew)
        · exact (hcover t).mp (Or.inr ((mem_disposedOf s t).mpr (Or.inl hOld)))
        · exact (hcover t).mp (Or.inl (hBP t (hsuB t hNew)))
        · exact (hcover t).mp (Or.inr ((mem_disposedOf s t).mpr (Or.inr (Or.inl hOld))))
        · exact (hcover t).mp (Or.inl (hBP t (hnoB t (hcfN t hNew))))
        · exact (hcover t).mp (Or.inr ((mem_disposedOf s t).mpr (Or.inr (Or.inr hOld))))
        · exact (hcover t).mp (Or.inl (hBP t (hunB t (hufU t hNew))))
    · intro hu
      rcases (hcover t).mpr hu with hp | hd
      · have htBR : t ∈ B ++ R := by rw [hsplit]; exact hp
        rcases List.mem_append.mp htBR with hB2 | hR2
        · rcases extract_covers raw B hshape t hB2 with hs | hn | hu2
          · right
            rw [hmemD2]
            exact Or.inl (Or.inr hs)
          · by_cases hc : cfg.noDataConfirmations ≤ s.noDataCounts t + 1
            · right
              rw [hmemD2]
              exact Or.inr (Or.inl (Or.inr (List.mem_filter.mpr ⟨hn, by simpa using hc⟩)))
            · left
              rw [hpend]
              refine List.mem_append_left _ (List.mem_append_right _
                (List.mem_filter.mpr ⟨hn, ?_⟩))
              simp only [decide_eq_true_eq]
              omega
          · by_cases hb2 : s.attemptCounts t + 1 ≤ cfg.maxRetriesPerTicker
            · left
              rw [hpend]
              exact List.mem_append_right _ (List.mem_filter.mpr ⟨hu2, by simpa using hb2⟩)
            · right
              rw [hmemD2]
              refine Or.inr (Or.inr (Or.inr (List.mem_filter.mpr ⟨hu2, ?_⟩)))
              simp only [decide_eq_true_eq]
              omega
        · left
          rw [hpend]
          exact List.mem_append_left _ (List.mem_append_left _ hR2)
      · right
        rw [hmemD2]
        rcases (mem_disposedOf s t).mp hd with h | h | h
        · exact Or.inl (Or.inl h)
        · exact Or.inr (Or.inl (Or.inl h))
        · exact Or.inr (Or.inr (Or.inl h))

/-- The partition invariant survives a completed loop run under a
well-shaped provider, and the run ends with an empty queue. -/
theorem runLoop_partition (cfg : Config) (provider : Nat → List String → Outcome)
    (u : List String) (hbs : 1 ≤ cfg.batchSize) (hws : WellShapedProvider provider) :
    ∀ fuel idx (s : LoaderState) (trace : List RoundOut) (s2 : LoaderState)
      (trace2 : List RoundOut),
      PartitionInv u s →
      runLoop cfg provider fuel idx s trace = some (s2, trace2) →
      PartitionInv u s2 ∧ s2.pending = [] := by
  intro fuel
  induction fuel with
  | zero =>
    intro idx s trace s2 trace2 hinv hrun
    by_cases hp : s.pending = []
    · rw [runLoop_nil cfg provider 0 idx s trace hp] at hrun
      cases hrun
      exact ⟨hinv, hp⟩
    · rw [runLoop, if_neg hp] at hrun
      exact Option.noConfusion hrun
  | succ n ih =>
    intro idx s trace s2 trace2 hinv hrun
    by_cases hp : s.pending = []
    · rw [runLoop_nil cfg provider (n + 1) idx s trace hp] at hrun
      cases hrun
      exact ⟨hinv, hp⟩
    · rw [runLoop_cons cfg provider n idx s trace hp] at hrun
      have hpres : PartitionInv u
          (roundStep cfg (provider idx (s.pending.take cfg.batchSize)) s).state := by
        cases ho : provider idx (s.pending.take cfg.batchSize) with
        | raises => exact roundTransport_partition cfg s u hinv
        | ok raw =>
          refine roundSuccess_partition cfg s raw u ?_ hinv
          intro rows0 hr
          by_contra hlen
          have hBne : s.pending.take cfg.batchSize ≠ [] := take_ne_nil_of_ne_nil hbs hp
          have h1 : 1 ≤ (s.pending.take cfg.batchSize).length := by
            cases hB : s.pending.take cfg.batchSize with
            | nil => exact absurd hB hBne
            | cons a as => simp
          have h2 : 2 ≤ (s.pending.take cfg.batchSize).length := by omega
          exact hws idx _ rows0 h2 (by rw [ho, hr])
      rw [show provider idx (s.pending.take cfg.batchSize) =
          provider idx (s.pending.take cfg.batchSize) from rfl] at hrun
      exact ih (idx + 1) _ _ s2 trace2 hpres hrun

/-- **C7**: the orchestrator deduplicates the input tickers preserving
first-seen order before seeding the queue; `total_tickers` is the
distinct count; and at clean completion (well-shaped provider) every
distinct input ticker has exactly one terminal disposition, so the
succeeded, confirmed-no-data and permanently-failed counts sum to the
total. -/
theorem download_accounting (cfg : Config) (provider : Nat → List String → Outcome)
    (tickers : List String) (hbs : 1 ≤ cfg.batchSize) (hws : WellShapedProvider provider) :
    DownloadAccounting cfg provider tickers := by
  have hinv0 : PartitionInv (dedupFirst tickers) (initState tickers) := by
    refine ⟨dedupFirst_nodup tickers, ?_, ?_, ?_⟩
    · show (([] : List String) ++ [] ++ []).Nodup
      simp
    · intro t ht h
      simp [disposedOf, initState] at h
    · intro t
      simp [disposedOf, initState]
  refine ⟨dedupFirst_sublist tickers, dedupFirst_nodup tickers,
    fun t => mem_dedupFirst tickers t, rfl, ?_⟩
  intro fuel s2 trace hrun
  obtain ⟨hfinal, hpend⟩ := runLoop_partition cfg provider (dedupFirst tickers) hbs hws
    fuel 1 (initState tickers) [] s2 trace hinv0 hrun
  obtain ⟨hPn, hDn, hdj, hcv⟩ := hfinal
  have hmemequiv : ∀ t, t ∈ disposedOf s2 ↔ t ∈ dedupFirst tickers := by
    intro t
    constructor
    · intro h
      exact (hcv t).mp (Or.inr h)
    · intro h
      rcases (hcv t).mpr h with hip | hid
      · rw [hpend] at hip
        cases hip
      · exact hid
  refine ⟨hpend, ?_, hDn, ?_⟩
  · intro t ht
    exact (mem_disposedOf s2 t).mp ((hmemequiv t).mpr ht)
  · have hlen : (disposedOf s2).length = (dedupFirst tickers).length := by
      rw [← List.toFinset_card_of_nodup hDn,
        ← List.toFinset_card_of_nodup (dedupFirst_nodup tickers)]
      congr 1
      ext a
      simp only [List.mem_toFinset]
      exact hmemequiv a
    have hsplit : (disposedOf s2).length =
        s2.succeededTickers.length + s2.confirmedNoData.length +
          s2.failedTickers.length := by
      simp [disposedOf]
      omega
    omega

/-- Witness: the accounting property at a concrete configuration,
always-raising provider, and a duplicated ticker list. -/
theorem download_accounting_witness :
    1 ≤ cfgW10.batchSize ∧ WellShapedProvider provW10 ∧
    DownloadAccounting cfgW10 provW10 ["A", "A", "B"] :=
  ⟨by decide, fun idx b rows0 _ heq => Outcome.noConfusion heq,
    download_accounting cfgW10 provW10 ["A", "A", "B"] (by decide)
      (fun idx b rows0 _ heq => Outcome.noConfusion heq)⟩

end StockPrices
